import Mathlib

/-!
# Search qualifiers of `gh search repos`

A shallow embedding of

* `pkg/cmd/search/shared/qualifier.go` (qualifiers, parameters and their validators),
* `pkg/search/search.go` (`Query`, `Qualifiers.ListSet`),
* `pkg/cmd/search/repos/repos.go` (`NewSearchQuery`, the limit check of the command and
  the rows `displayResults` prints),

together with the parts of the Go standard library these files call
(`strings.ContainsAny`, `strings.Split`, `strings.Join`, `strconv.Quote`,
`strconv.ParseBool`, `regexp.MatchString`).

Conventions of the embedding:

* a Go `string` is a Lean `String` (a sequence of Unicode code points; Go strings that
  are not valid UTF-8 are outside the model);
* a Go `error` is an `Option String`: `none` is `nil`, `some msg` is an error whose
  message is `msg`;
* a method with a pointer receiver that mutates it returns the new receiver next to
  its result;
* a nil function value is `none`.
-/

namespace Search

/-! ## Standard library: `strings` -/

/-- Go `strings.ContainsAny(s, chars)`: some code point of `chars` occurs in `s`. -/
def ContainsAny (s chars : String) : Bool :=
  s.data.any (fun c => chars.data.contains c)

/-- Go `strings.Join(elems, sep)`. -/
def Join : List String → String → String
  | [], _ => ""
  | [a], _ => a
  | a :: b :: rest, sep => a ++ sep ++ Join (b :: rest) sep

/-- Splitting a sequence of characters at every occurrence of `sep`; the result is
never empty and has one more element than there are separators. -/
def splitChars (sep : Char) : List Char → List (List Char)
  | [] => [[]]
  | c :: cs =>
    if c = sep then [] :: splitChars sep cs
    else
      match splitChars sep cs with
      | t :: ts => (c :: t) :: ts
      | [] => [[c]]

/-- Go `strings.Split(s, sep)` for a separator of one character, which is how
`MultiOptsValidator` calls it (`strings.Split(v, ",")`). -/
def Split (s : String) (sep : Char) : List String :=
  (splitChars sep s.data).map String.mk

/-! ## Standard library: `strconv` -/

/-- The digits `strconv` uses for hexadecimal escapes (`lowerhex`). -/
def lowerhex : List Char := "0123456789abcdef".data

/-- The hexadecimal digit `lowerhex[n]`. -/
def hexDigit (n : Nat) : Char := lowerhex.getD n '0'

/-- Go `strconv.IsPrint`. Up to U+00FF the answer is computed as in the library; above
it the library looks the rune up in its tables `isPrint16`, `isNotPrint16`,
`isPrint32` and `isNotPrint32`, which are the parameter `printTable`. -/
def IsPrint (printTable : Char → Bool) (r : Char) : Bool :=
  if r.toNat ≤ 0xFF then
    if 0x20 ≤ r.toNat ∧ r.toNat ≤ 0x7E then true
    else if 0xA1 ≤ r.toNat ∧ r.toNat ≤ 0xFF then r.toNat != 0xAD
    else false
  else printTable r

/-- Go `strconv.appendEscapedRune` with `quote = '"'`, `ASCIIonly = false` and
`graphicOnly = false`: the escaped form of one rune inside a double-quoted literal.
A `Char` is always a valid rune, so the branch for invalid runes is absent. -/
def escapedRune (printTable : Char → Bool) (r : Char) : List Char :=
  if r = '"' ∨ r = '\\' then ['\\', r]
  else if IsPrint printTable r then [r]
  else if r.toNat = 0x07 then ['\\', 'a']
  else if r.toNat = 0x08 then ['\\', 'b']
  else if r.toNat = 0x0C then ['\\', 'f']
  else if r = '\n' then ['\\', 'n']
  else if r = '\r' then ['\\', 'r']
  else if r = '\t' then ['\\', 't']
  else if r.toNat = 0x0B then ['\\', 'v']
  else if r.toNat < 0x20 ∨ r.toNat = 0x7F then
    ['\\', 'x', hexDigit (r.toNat / 16 % 16), hexDigit (r.toNat % 16)]
  else if r.toNat < 0x10000 then
    ['\\', 'u', hexDigit (r.toNat / 4096 % 16), hexDigit (r.toNat / 256 % 16),
      hexDigit (r.toNat / 16 % 16), hexDigit (r.toNat % 16)]
  else
    ['\\', 'U', hexDigit (r.toNat / 268435456 % 16), hexDigit (r.toNat / 16777216 % 16),
      hexDigit (r.toNat / 1048576 % 16), hexDigit (r.toNat / 65536 % 16),
      hexDigit (r.toNat / 4096 % 16), hexDigit (r.toNat / 256 % 16),
      hexDigit (r.toNat / 16 % 16), hexDigit (r.toNat % 16)]

/-- Go `strconv.Quote(s)`, which is what `fmt.Sprintf("%q", s)` prints for a string:
a double quote, every rune escaped by `escapedRune`, a double quote. -/
def Quote (printTable : Char → Bool) (s : String) : String :=
  String.mk ('"' :: (s.data.flatMap (escapedRune printTable) ++ ['"']))

/-- Go `strconv.ParseBool`: `some b` for the literals the library accepts, `none` for
its syntax error (whose text no caller here looks at). -/
def ParseBool (str : String) : Option Bool :=
  if str = "1" ∨ str = "t" ∨ str = "T" ∨ str = "TRUE" ∨ str = "true" ∨ str = "True" then
    some true
  else if str = "0" ∨ str = "f" ∨ str = "F" ∨ str = "FALSE" ∨ str = "false"
      ∨ str = "False" then
    some false
  else none

/-! ## `pkg/cmd/search/shared/qualifier.go` -/

/-- Go `type validator func(string) error`. -/
abbrev validator := String → Option String

/-- Go `type qualifier struct`; `parameter` is an alias of it. A nil `validator` is
`none`. -/
structure qualifier where
  key : String
  kind : String
  set : Bool
  validator : Option validator
  value : String

/-- Go `type parameter = qualifier`. -/
abbrev parameter := qualifier

/-- Go `NewQualifier`: the `set` field is left at its zero value `false`. -/
def NewQualifier (key kind value : String) (validator : Option validator) : qualifier :=
  ⟨key, kind, false, validator, value⟩

/-- Go `NewParameter`. -/
def NewParameter (key kind value : String) (validator : Option validator) : parameter :=
  ⟨key, kind, false, validator, value⟩

/-- Go `(*qualifier).IsSet`. -/
def qualifier.IsSet (q : qualifier) : Bool := q.set

/-- Go `(*qualifier).Key`. -/
def qualifier.Key (q : qualifier) : String := q.key

/-- Go `(*qualifier).Type`. -/
def qualifier.Type (q : qualifier) : String := q.kind

/-- Go `(*qualifier).Set`: the returned error and the receiver after the call. -/
def qualifier.Set (q : qualifier) (v : String) : Option String × qualifier :=
  match q.validator with
  | some validate =>
    match validate v with
    | some err => (some err, q)
    | none => (none, ⟨q.key, q.kind, true, q.validator, v⟩)
  | none => (none, ⟨q.key, q.kind, true, q.validator, v⟩)

/-- Go `(*qualifier).String`. -/
def qualifier.String (printTable : Char → Bool) (q : qualifier) :=
  if ContainsAny q.value " \"\t\r\n" then Quote printTable q.value else q.value

/-- Go `isIncluded`. -/
def isIncluded (v : String) : List String → Bool
  | [] => false
  | opt :: opts => if v = opt then true else isIncluded v opts

/-- Go `OptsValidator`. -/
def OptsValidator (opts : List String) : validator := fun v =>
  if !isIncluded v opts then
    some (v ++ " is not included in " ++ Join opts ", ")
  else none

/-- The `for _, t := range s` loop of `MultiOptsValidator`. -/
def multiOptsLoop (printTable : Char → Bool) (opts : List String) :
    List String → Option String
  | [] => none
  | t :: s =>
    if !isIncluded t opts then
      some (Quote printTable t ++ " is not included in " ++ Join opts ", ")
    else multiOptsLoop printTable opts s

/-- Go `MultiOptsValidator`. -/
def MultiOptsValidator (printTable : Char → Bool) (opts : List String) : validator :=
  fun v => multiOptsLoop printTable opts (Split v ',')

/-- Go `BoolValidator`. -/
def BoolValidator : validator := fun v =>
  match ParseBool v with
  | none => some (v ++ " is not a boolean value")
  | some _ => none

/-! ## Standard library: `regexp` -/

/-- The syntax tree of the regular expressions used here (Go `regexp/syntax`):
a literal character, a character class given by a range (`\d` is `0-9`), the anchors `^`
and `$` (without the `m` flag: beginning and end of the text), concatenation,
alternation, `?`, `+` and a capturing group. -/
inductive Regexp where
  | literal (c : Char)
  | charClass (lo hi : Char)
  | beginText
  | endText
  | concat (a b : Regexp)
  | alternate (a b : Regexp)
  | quest (a : Regexp)
  | plus (a : Regexp)
  | capture (a : Regexp)

/-- A position of a match in a text: whether it is the beginning of the text, and the
characters that are still to be read. -/
abbrev Cursor := Bool × List Char

/-- Zero or more rounds of `step`, each of which has to read at least one character; `n`
bounds the number of rounds. -/
def iterate (step : Cursor → List Cursor) : Nat → Cursor → List Cursor
  | 0, c => [c]
  | n + 1, c =>
    c :: ((step c).filter (fun d => d.2.length < c.2.length)).flatMap (iterate step n)

/-- All positions at which a match of the expression that starts at the given position
can end. -/
def Regexp.run : Regexp → Cursor → List Cursor
  | .literal x, c =>
    match c.2 with
    | y :: rest => if y = x then [(false, rest)] else []
    | [] => []
  | .charClass lo hi, c =>
    match c.2 with
    | y :: rest => if lo ≤ y ∧ y ≤ hi then [(false, rest)] else []
    | [] => []
  | .beginText, c => if c.1 then [c] else []
  | .endText, c => if c.2.isEmpty then [c] else []
  | .concat a b, c => (a.run c).flatMap b.run
  | .alternate a b, c => a.run c ++ b.run c
  | .quest a, c => a.run c ++ [c]
  | .plus a, c => (a.run c).flatMap (fun d => iterate a.run d.2.length d)
  | .capture a, c => a.run c

/-- The positions of a text at which a match may start: the beginning, and then one after
each character. -/
def startCursors (s : List Char) : List Cursor :=
  (true, s) :: (s.tails.tail).map (fun rest => (false, rest))

/-- Go `(*Regexp).MatchString`: the text contains a match of the expression. -/
def Regexp.MatchString (re : Regexp) (s : String) : Bool :=
  (startCursors s.data).any (fun c => !(re.run c).isEmpty)

/-! ## The patterns of `qualifier.go` -/

/-- The group `(>|>=|<|<=|\*\.\.)`. -/
def comparisonRE : Regexp :=
  .capture (.alternate (.literal '>') (.alternate (.concat (.literal '>') (.literal '='))
    (.alternate (.literal '<') (.alternate (.concat (.literal '<') (.literal '='))
      (.concat (.literal '*') (.concat (.literal '.') (.literal '.')))))))

/-- The class `\d`. -/
def digitRE : Regexp := .charClass '0' '9'

/-- Go `rangeRE`, the pattern `^(>|>=|<|<=|\*\.\.)?\d+(\.\.(\*|\d+))?$`. -/
def rangeRE : Regexp :=
  .concat .beginText (.concat (.quest comparisonRE) (.concat (.plus digitRE)
    (.concat
      (.quest (.capture (.concat (.literal '.') (.concat (.literal '.')
        (.capture (.alternate (.literal '*') (.plus digitRE)))))))
      .endText)))

/-- Go `dateTime`, the pattern `(\d|-|\+|:|T)+`. -/
def dateTime : Regexp :=
  .plus (.capture (.alternate digitRE (.alternate (.literal '-') (.alternate (.literal '+')
    (.alternate (.literal ':') (.literal 'T'))))))

/-- Go `dateTimeRangeRE`, the pattern `^(>|>=|<|<=|\*\.\.)?%s(\.\.(\*|%s))?$` with
`dateTime` in the place of both `%s`. -/
def dateTimeRangeRE : Regexp :=
  .concat .beginText (.concat (.quest comparisonRE) (.concat dateTime
    (.concat
      (.quest (.capture (.concat (.literal '.') (.concat (.literal '.')
        (.capture (.alternate (.literal '*') dateTime))))))
      .endText)))

/-- Go `RangeValidator`. -/
def RangeValidator : validator := fun v =>
  if !rangeRE.MatchString v then some (v ++ " is invalid format") else none

/-- Go `DateValidator`. -/
def DateValidator : validator := fun v =>
  if !dateTimeRangeRE.MatchString v then some (v ++ " is invalid format") else none

/-! ## The grammar of ranges, as the documentation words it -/

/-- The documented shape of a range whose scalar tokens are made of the characters
`tok`: an optional prefix among `>`, `>=`, `<`, `<=`, `*..`, then a token, then
optionally `..` followed by `*` or by another token. A token is one or more characters
of `tok`. -/
def IsRangeSyntax (tok : Char → Bool) (v : String) : Prop :=
  ∃ p d t : String, v = p ++ d ++ t
    ∧ p ∈ ["", ">", ">=", "<", "<=", "*.."]
    ∧ d ≠ "" ∧ (∀ c ∈ d.data, tok c = true)
    ∧ (t = "" ∨ t = "..*" ∨ ∃ e : String, e ≠ "" ∧ (∀ c ∈ e.data, tok c = true) ∧ t = ".." ++ e)

/-- The characters of a date token: an ASCII digit, `-`, `+`, `:` or `T`. -/
def isDateChar (c : Char) : Bool :=
  c.isDigit || c == '-' || c == '+' || c == ':' || c == 'T'

/-! ## `pkg/search/search.go` -/

/-- A Go `map[string]string`, as the list of its key and value pairs; no key occurs
twice. -/
abbrev StringMap := List (String × String)

/-- The Go assignment `m[k] = s`: a pair with the key `k` is replaced. -/
def StringMap.assign (m : StringMap) (k s : String) : StringMap :=
  (k, s) :: m.filter (fun e => e.1 != k)

/-- The Go index expression `m[k]`, with `none` for a key that is absent. -/
def StringMap.index (m : StringMap) (k : String) : Option String :=
  (m.find? (fun e => e.1 == k)).map (fun e => e.2)

/-- Go `type Qualifiers map[string]Qualifier`: the entries of the map, a label and the
qualifier it points to, in the order in which `range` visits them (Go leaves that order
open, so a statement about the map holds for every order of the list). -/
abbrev Qualifiers := List (String × qualifier)

/-- The Go index expression `q[label]` on a `Qualifiers` map, with `none` for a label
that is absent. -/
def Qualifiers.index (q : Qualifiers) (label : String) : Option qualifier :=
  (q.find? (fun e => e.1 == label)).map (fun e => e.2)

/-- Go `(*Qualifiers).ListSet`. -/
def Qualifiers.ListSet (printTable : Char → Bool) (q : Qualifiers) : StringMap :=
  q.foldl (fun m e =>
    if e.2.IsSet then m.assign e.2.Key (e.2.String printTable) else m) []

/-! ## `ListSet` as a call on qualifiers in memory -/

/-- Go `(*qualifier).IsSet` as a call on a receiver in memory: what it returns, and the
receiver after the call. Its body, `return q.set`, assigns to no field. -/
def qualifier.callIsSet (q : qualifier) : Bool × qualifier := (q.set, q)

/-- Go `(*qualifier).Key` as a call on a receiver in memory. Its body, `return q.key`,
assigns to no field. -/
def qualifier.callKey (q : qualifier) := (q.key, q)

/-- Go `(*qualifier).String` as a call on a receiver in memory. Both branches of its body
return a value computed from `q.value` and assign to no field. -/
def qualifier.callString (printTable : Char → Bool) (q : qualifier) :=
  (if ContainsAny q.value " \"\t\r\n" then Quote printTable q.value else q.value, q)

/-- The loop `for _, v := range *q` of Go `ListSet`, on qualifiers in memory: the entries
still to visit and the map built so far give the map after the loop and the entries as
the calls `v.IsSet()`, `v.Key()` and `v.String()` leave them. -/
def listSetLoop (printTable : Char → Bool) : Qualifiers → StringMap → StringMap × Qualifiers
  | [], m => (m, [])
  | (label, v) :: rest, m =>
    if (v.callIsSet).1 then
      ((listSetLoop printTable rest
          (m.assign ((v.callIsSet).2.callKey).1
            ((((v.callIsSet).2.callKey).2.callString printTable).1))).1,
        (label, (((v.callIsSet).2.callKey).2.callString printTable).2)
          :: (listSetLoop printTable rest
            (m.assign ((v.callIsSet).2.callKey).1
              ((((v.callIsSet).2.callKey).2.callString printTable).1))).2)
    else
      ((listSetLoop printTable rest m).1,
        (label, (v.callIsSet).2) :: (listSetLoop printTable rest m).2)

/-- Go `(*Qualifiers).ListSet` as a call on qualifiers in memory: the map it returns, and
the collection after the call. -/
def Qualifiers.callListSet (printTable : Char → Bool) (q : Qualifiers) :
    StringMap × Qualifiers :=
  listSetLoop printTable q []

/-! ## Notions of the documentation -/

/-- A white space character, as Go's `unicode.IsSpace` defines it: tab, line feed,
vertical tab, form feed, carriage return, space, U+0085, U+00A0 and the other code
points with the Unicode property `White_Space`. -/
def isWhiteSpace (c : Char) : Bool :=
  c.toNat ∈ [0x09, 0x0A, 0x0B, 0x0C, 0x0D, 0x20, 0x85, 0xA0, 0x1680, 0x2028, 0x2029,
    0x202F, 0x205F, 0x3000] || (0x2000 ≤ c.toNat && c.toNat ≤ 0x200A)

/-- A qualifier for topics whose value holds a form feed between two letters. -/
def formFeedTopic : qualifier := NewQualifier "topic" "string" "a\x0cb" none

/-! ## Notions used in the proofs about the matcher -/

/-- A regular expression that reads exactly one character, one that satisfies `p`. -/
def ReadsOne (r : Regexp) (p : Char → Prop) : Prop :=
  ∀ c c' : Cursor, c' ∈ r.run c ↔ c'.1 = false ∧ ∃ y, p y ∧ c.2 = y :: c'.2

/-- The shape both patterns share: `^(>|>=|<|<=|\*\.\.)?S(\.\.(\*|S))?$` for a scalar
expression `S`. -/
def rangeShape (scalar : Regexp) : Regexp :=
  .concat .beginText (.concat (.quest comparisonRE) (.concat scalar
    (.concat
      (.quest (.capture (.concat (.literal '.') (.concat (.literal '.')
        (.capture (.alternate (.literal '*') scalar))))))
      .endText)))

/-- A regular expression that reads exactly one token: one or more characters that
satisfy `p`. -/
def ReadsToken (r : Regexp) (p : Char → Prop) : Prop :=
  ∀ c c' : Cursor, c' ∈ r.run c ↔
    c'.1 = false ∧ ∃ d, d ≠ [] ∧ (∀ y ∈ d, p y) ∧ c.2 = d ++ c'.2

/-! ## Sequences of `Set` calls -/

/-- Calling `Set` with each of the values in turn: the errors the calls return, in
order, and the qualifier after the last call. -/
def setEach (q : qualifier) : List String → List (Option String) × qualifier
  | [] => ([], q)
  | v :: vs => ((q.Set v).1 :: (setEach (q.Set v).2 vs).1, (setEach (q.Set v).2 vs).2)

/-- The arguments of the calls that returned no error, in order. -/
def succeeded (vs : List String) (errs : List (Option String)) : List String :=
  ((vs.zip errs).filter (fun p => p.2.isNone)).map (fun p => p.1)

/-! ## `pkg/search/search.go`: the query -/

/-- Go `search.Query`. A nil `Keywords` slice is the empty list; the field `Sort` is
named `SortBy` here, `Sort` being a reserved word. -/
structure Query where
  Keywords : List String
  Kind : String
  Limit : Int
  Order : parameter
  Qualifiers : Qualifiers
  SortBy : parameter

/-! ## `pkg/cmd/search/repos/repos.go` -/

/-- Go `NewSearchQuery`. The entries of the `Qualifiers` literal are listed in the order
of the source; `Keywords` and `Limit` are left at their zero values. -/
def NewSearchQuery (printTable : Char → Bool) : Query :=
  ⟨[], "repositories", 0,
    NewParameter "order" "string" "desc" (some (OptsValidator ["asc", "desc"])),
    [("Archived", NewQualifier "archived" "bool" "" (some BoolValidator)),
     ("Created", NewQualifier "created" "string" "" (some DateValidator)),
     ("Followers", NewQualifier "followers" "string" "" (some RangeValidator)),
     ("Fork", NewQualifier "fork" "string" "false"
        (some (OptsValidator ["false", "true", "only"]))),
     ("Forks", NewQualifier "forks" "string" "" (some RangeValidator)),
     ("GoodFirstIssues", NewQualifier "good-first-issues" "string" "" (some RangeValidator)),
     ("HelpWantedIssues", NewQualifier "help-wanted-issues" "string" ""
        (some RangeValidator)),
     ("In", NewQualifier "in" "string" "name,descripton"
        (some (MultiOptsValidator printTable ["name", "description", "readme"]))),
     ("Language", NewQualifier "language" "string" "" none),
     ("License", NewQualifier "license" "string" "" none),
     ("Mirror", NewQualifier "mirror" "bool" "" (some BoolValidator)),
     ("Org", NewQualifier "org" "string" "" none),
     ("Pushed", NewQualifier "pushed" "string" "" (some DateValidator)),
     ("Repo", NewQualifier "repo" "string" "" none),
     ("Size", NewQualifier "size" "string" "" (some RangeValidator)),
     ("Stars", NewQualifier "stars" "string" "" (some RangeValidator)),
     ("Topic", NewQualifier "topic" "string" "" none),
     ("Topics", NewQualifier "topics" "string" "" (some RangeValidator)),
     ("User", NewQualifier "user" "string" "" none),
     ("Visibility", NewQualifier "is" "string" "public"
        (some (OptsValidator ["public", "private"])))],
    NewParameter "sort" "string" "best match"
      (some (OptsValidator ["forks", "help-wanted-issues", "stars", "updated"]))⟩

/-- Go `ReposOptions`, without the handles to the browser, the configuration, the
exporter, the HTTP client and the terminal. -/
structure ReposOptions where
  GoTemplate : String
  JqExpression : String
  Query : Query
  WebMode : Bool

/-- What a call of `RunE` does: it returns an error of its own, or it returns what `runF`
or `reposRun` returns for the options it hands over. -/
inductive RunResult (E : Type) where
  | returned (err : E)
  | runF (opts : ReposOptions)
  | reposRun (opts : ReposOptions)

/-- The assignment `opts.Query.Keywords = args`. -/
def ReposOptions.setKeywords (opts : ReposOptions) (args : List String) : ReposOptions :=
  ⟨opts.GoTemplate, opts.JqExpression,
    ⟨args, opts.Query.Kind, opts.Query.Limit, opts.Query.Order, opts.Query.Qualifiers,
      opts.Query.SortBy⟩,
    opts.WebMode⟩

/-- The `RunE` closure of Go `NewCmdRepos`. The helpers `cmdutil.MutuallyExclusive` and
`cmdutil.FlagErrorf` belong to a package whose source is not at hand; they are the
parameters `mutuallyExclusive` (the error it returns, if any) and `flagErrorf` (the
error it builds from a message), over a type `E` of errors. `hasRunF` says that `runF`
is not nil. -/
def RunE {E : Type} (mutuallyExclusive : String → List Bool → Option E)
    (flagErrorf : String → E) (hasRunF : Bool) (opts : ReposOptions) (args : List String) :
    RunResult E :=
  let opts := opts.setKeywords args
  match mutuallyExclusive "expected exactly one of `--jq`, `--template`, or `--web`"
      [opts.GoTemplate != "", opts.JqExpression != "", opts.WebMode] with
  | some err => .returned err
  | none =>
    if opts.Query.Limit < 1 ∨ opts.Query.Limit > 1000 then
      .returned (flagErrorf "`--limit` must be between 1 and 1000")
    else if hasRunF then .runF opts
    else .reposRun opts

/-- A Go `interface{}` as `encoding/json` decodes a JSON value into it; the nil interface
is `null`. A number carries the text of its literal. -/
inductive Value where
  | null
  | bool (b : Bool)
  | number (text : String)
  | string (s : String)
  | array (items : List Value)
  | object (fields : List (String × Value))

/-- A result item, Go `map[string]interface{}`, as the list of its fields. -/
abbrev Item := List (String × Value)

/-- The Go index expression `repo[name]` on an item: the nil interface for a field that
is absent. -/
def Item.index (repo : Item) (name : String) : Value :=
  match repo.find? (fun f => f.1 == name) with
  | some f => f.2
  | none => .null

/-- The name Go prints for the dynamic type of a decoded value. -/
def Value.typeName : Value → String
  | .null => "nil"
  | .bool _ => "bool"
  | .number _ => "float64"
  | .string _ => "string"
  | .array _ => "[]interface {}"
  | .object _ => "map[string]interface {}"

/-- The Go type assertion `b, _ := x.(bool)`: the zero value when `x` is not a bool. -/
def Value.asBool : Value → Bool
  | .bool b => b
  | _ => false

/-- The Go type assertion `s, _ := x.(string)`: the zero value when `x` is not a
string. -/
def Value.asString : Value → String
  | .string s => s
  | _ => ""

/-- The Go type assertion `x.(string)` in its one-value form: a run-time panic, here an
error that carries its message, when `x` is not a string. -/
def Value.mustString : Value → Except String String
  | .string s => .ok s
  | v => .error ("interface conversion: interface {} is " ++ v.typeName ++ ", not string")

/-- The body of the loop of Go `displayResults` for one item: the fields it adds to the
table, each with the name of its colour function if it has one, or the panic that stops
it. The terminal test `tp.IsTTY()`, the helper `text.ReplaceExcessiveWhitespace` and the
conversion of the time stamp (`time.Parse` with RFC 3339, then `Format` with RFC 822) are
the parameters `isTTY`, `replaceExcessiveWhitespace` and `formatTime`. -/
def displayRow (isTTY : Bool) (replaceExcessiveWhitespace formatTime : String → String)
    (repo : Item) : Except String (List (String × Option String)) :=
  let isPrivate := (repo.index "private").asBool
  let fork := (repo.index "fork").asBool
  let archived := (repo.index "archived").asBool
  let tags : List String :=
    (if isPrivate then ["private"] else ["public"])
      ++ (if fork then ["fork"] else []) ++ (if archived then ["archived"] else [])
  let info := Join tags ", "
  let infoColor := if isPrivate then "Yellow" else "Gray"
  let updatedAt := (repo.index "updated_at").asString
  match (repo.index "full_name").mustString with
  | .error msg => .error msg
  | .ok fullName =>
    let description := (repo.index "description").asString
    .ok [(fullName, some "Bold"), (replaceExcessiveWhitespace description, none),
      (info, some infoColor),
      if isTTY then (formatTime updatedAt, some "Gray") else (updatedAt, none)]

/-- The loop `for _, repo := range results.Items` of Go `displayResults`: the rows of
the table, or the panic of the first item that has one. -/
def displayRows (isTTY : Bool) (replaceExcessiveWhitespace formatTime : String → String) :
    List Item → Except String (List (List (String × Option String)))
  | [] => .ok []
  | repo :: items =>
    match displayRow isTTY replaceExcessiveWhitespace formatTime repo with
    | .error msg => .error msg
    | .ok row =>
      match displayRows isTTY replaceExcessiveWhitespace formatTime items with
      | .error msg => .error msg
      | .ok rows => .ok (row :: rows)

/-! ## Lemmas on the library functions -/

theorem isIncluded_eq_true_iff (v : String) (opts : List String) :
    isIncluded v opts = true ↔ v ∈ opts := by
  induction opts with
  | nil => simp [isIncluded]
  | cons o os ih =>
    unfold isIncluded
    by_cases h : v = o
    · simp [h]
    · simp [h, ih]

theorem splitChars_ne_nil (sep : Char) (l : List Char) : splitChars sep l ≠ [] := by
  cases l with
  | nil => simp [splitChars]
  | cons c cs =>
    unfold splitChars
    split
    · simp
    · split <;> simp

theorem splitChars_of_not_mem (sep : Char) (l : List Char) (h : sep ∉ l) :
    splitChars sep l = [l] := by
  induction l with
  | nil => rfl
  | cons c cs ih =>
    have hc : c ≠ sep := fun e => h (by simp [e])
    have hcs : sep ∉ cs := fun e => h (by simp [e])
    simp [splitChars, hc, ih hcs]

theorem splitChars_append_sep (sep : Char) (l r : List Char) (h : sep ∉ l) :
    splitChars sep (l ++ sep :: r) = l :: splitChars sep r := by
  induction l with
  | nil => simp [splitChars]
  | cons c cs ih =>
    have hc : c ≠ sep := fun e => h (by simp [e])
    have hcs : sep ∉ cs := fun e => h (by simp [e])
    simp [splitChars, hc, ih hcs]

theorem Split_Join_cons (sep : Char) (t : String) (ts : List String)
    (h : ∀ u ∈ t :: ts, sep ∉ u.data) :
    Split (Join (t :: ts) (String.mk [sep])) sep = t :: ts := by
  induction ts generalizing t with
  | nil =>
    have ht : sep ∉ t.data := h t (by simp)
    simp [Split, Join, splitChars_of_not_mem sep t.data ht]
  | cons b rest ih =>
    have ht : sep ∉ t.data := h t (by simp)
    have hrest : ∀ u ∈ b :: rest, sep ∉ u.data := fun u hu => h u (by simp [hu])
    have ih2 := ih b hrest
    simp only [Split] at ih2 ⊢
    simp only [Join, String.data_append, List.append_assoc, List.singleton_append]
    rw [splitChars_append_sep sep _ _ ht]
    simp [ih2]

theorem multiOptsLoop_eq_none_iff (printTable : Char → Bool) (opts s : List String) :
    multiOptsLoop printTable opts s = none ↔ ∀ t ∈ s, t ∈ opts := by
  induction s with
  | nil => simp [multiOptsLoop]
  | cons t s ih =>
    unfold multiOptsLoop
    by_cases h : isIncluded t opts = true
    · have ht : t ∈ opts := (isIncluded_eq_true_iff t opts).1 h
      simp [h, ih, ht]
    · have ht : t ∉ opts := fun e => h ((isIncluded_eq_true_iff t opts).2 e)
      simp [h, ht]

theorem multiOptsLoop_first (printTable : Char → Bool) (opts s : List String) (t : String)
    (h : s.find? (fun u => decide (u ∉ opts)) = some t) :
    multiOptsLoop printTable opts s
      = some (Quote printTable t ++ " is not included in " ++ Join opts ", ") := by
  induction s with
  | nil => simp at h
  | cons u s ih =>
    unfold multiOptsLoop
    by_cases hu : isIncluded u opts = true
    · have hm : u ∈ opts := (isIncluded_eq_true_iff u opts).1 hu
      simp only [List.find?_cons, hm, not_true_eq_false, decide_False] at h
      simp [hu, ih h]
    · have hm : u ∉ opts := fun e => hu ((isIncluded_eq_true_iff u opts).2 e)
      simp only [List.find?_cons, hm, not_false_eq_true, decide_True, Option.some.injEq] at h
      subst h
      simp [hu]

/-! ## Lemmas on the matcher -/

theorem mem_run_literal (x : Char) (c c' : Cursor) :
    c' ∈ (Regexp.literal x).run c ↔ c'.1 = false ∧ c.2 = x :: c'.2 := by
  obtain ⟨b, r⟩ := c
  obtain ⟨b', r'⟩ := c'
  cases r with
  | nil => simp [Regexp.run]
  | cons y rest =>
    by_cases h : y = x
    · simp only [Regexp.run, h, if_true, List.mem_singleton, Prod.mk.injEq, List.cons.injEq,
        true_and]
      exact and_congr_right (fun _ => eq_comm)
    · simp [Regexp.run, h]

theorem mem_run_charClass (lo hi : Char) (c c' : Cursor) :
    c' ∈ (Regexp.charClass lo hi).run c
      ↔ c'.1 = false ∧ ∃ y, (lo ≤ y ∧ y ≤ hi) ∧ c.2 = y :: c'.2 := by
  obtain ⟨b, r⟩ := c
  obtain ⟨b', r'⟩ := c'
  cases r with
  | nil => simp [Regexp.run]
  | cons y rest =>
    by_cases h : lo ≤ y ∧ y ≤ hi
    · simp only [Regexp.run, h, and_self, if_true, List.mem_singleton, Prod.mk.injEq]
      constructor
      · rintro ⟨rfl, rfl⟩
        exact ⟨rfl, y, h, rfl⟩
      · rintro ⟨hb, z, _, hz⟩
        simp only [List.cons.injEq] at hz
        exact ⟨hb, hz.2.symm⟩
    · simp only [Regexp.run, h, if_false, List.not_mem_nil, false_iff]
      rintro ⟨_, z, hz, hzz⟩
      simp only [List.cons.injEq] at hzz
      exact h (hzz.1 ▸ hz)

theorem mem_run_concat (a b : Regexp) (c c' : Cursor) :
    c' ∈ (Regexp.concat a b).run c ↔ ∃ m, m ∈ a.run c ∧ c' ∈ b.run m := by
  simp [Regexp.run, List.mem_flatMap]

theorem mem_run_alternate (a b : Regexp) (c c' : Cursor) :
    c' ∈ (Regexp.alternate a b).run c ↔ c' ∈ a.run c ∨ c' ∈ b.run c := by
  simp [Regexp.run]

theorem mem_run_quest (a : Regexp) (c c' : Cursor) :
    c' ∈ (Regexp.quest a).run c ↔ c' ∈ a.run c ∨ c' = c := by
  simp [Regexp.run]

theorem mem_run_capture (a : Regexp) (c c' : Cursor) :
    c' ∈ (Regexp.capture a).run c ↔ c' ∈ a.run c := by
  simp [Regexp.run]

theorem mem_run_beginText (c c' : Cursor) :
    c' ∈ Regexp.beginText.run c ↔ c.1 = true ∧ c' = c := by
  by_cases h : c.1 = true <;> simp [Regexp.run, h]

theorem mem_run_endText (c c' : Cursor) :
    c' ∈ Regexp.endText.run c ↔ c.2 = [] ∧ c' = c := by
  by_cases h : c.2 = [] <;> simp [Regexp.run, h]

theorem mem_iterate_of_readsOne {r : Regexp} {p : Char → Prop} (h : ReadsOne r p)
    (n : Nat) (c c' : Cursor) :
    c' ∈ iterate r.run n c ↔
      c' = c ∨ (c'.1 = false ∧
        ∃ d, d ≠ [] ∧ d.length ≤ n ∧ (∀ y ∈ d, p y) ∧ c.2 = d ++ c'.2) := by
  induction n generalizing c with
  | zero =>
    simp only [iterate, List.mem_singleton, Nat.le_zero_eq, List.length_eq_zero]
    constructor
    · exact fun e => Or.inl e
    · rintro (e | ⟨_, d, hd, hd0, _⟩)
      · exact e
      · exact absurd hd0 hd
  | succ n ih =>
    simp only [iterate, List.mem_cons, List.mem_flatMap, List.mem_filter, decide_eq_true_eq]
    constructor
    · rintro (e | ⟨m, ⟨hm, _⟩, hc'⟩)
      · exact Or.inl e
      · right
        obtain ⟨hm1, y, hy, hcy⟩ := (h c m).1 hm
        rcases (ih m).1 hc' with e | ⟨hf, d, hd, hlen, hall, hmd⟩
        · subst e
          exact ⟨hm1, [y], by simp, by simp, by simpa using hy, by simp [hcy]⟩
        · refine ⟨hf, y :: d, by simp, by simpa using hlen, ?_, by simp [hcy, hmd]⟩
          intro z hz
          rcases List.mem_cons.1 hz with e | e
          · exact e ▸ hy
          · exact hall z e
    · rintro (e | ⟨hf, d, hd, hlen, hall, hcd⟩)
      · exact Or.inl e
      · right
        cases d with
        | nil => exact absurd rfl hd
        | cons y d =>
          refine ⟨(false, d ++ c'.2), ⟨(h c _).2 ⟨rfl, y, hall y (by simp), by simpa using hcd⟩,
            by simp [hcd]⟩, ?_⟩
          refine (ih _).2 ?_
          cases d with
          | nil => left; exact Prod.ext hf (by simp)
          | cons z d =>
            right
            exact ⟨hf, z :: d, by simp, by simpa using hlen,
              fun w hw => hall w (List.mem_cons_of_mem _ hw), rfl⟩

theorem mem_run_plus_of_readsOne {r : Regexp} {p : Char → Prop} (h : ReadsOne r p)
    (c c' : Cursor) :
    c' ∈ (Regexp.plus r).run c ↔
      c'.1 = false ∧ ∃ d, d ≠ [] ∧ (∀ y ∈ d, p y) ∧ c.2 = d ++ c'.2 := by
  simp only [Regexp.run, List.mem_flatMap]
  constructor
  · rintro ⟨m, hm, hc'⟩
    obtain ⟨hm1, y, hy, hcy⟩ := (h c m).1 hm
    rcases (mem_iterate_of_readsOne h _ m c').1 hc' with e | ⟨hf, d, hd, _, hall, hmd⟩
    · subst e
      exact ⟨hm1, [y], by simp, by simpa using hy, by simp [hcy]⟩
    · refine ⟨hf, y :: d, by simp, ?_, by simp [hcy, hmd]⟩
      intro z hz
      rcases List.mem_cons.1 hz with e | e
      · exact e ▸ hy
      · exact hall z e
  · rintro ⟨hf, d, hd, hall, hcd⟩
    cases d with
    | nil => exact absurd rfl hd
    | cons y d =>
      refine ⟨(false, d ++ c'.2), (h c _).2 ⟨rfl, y, hall y (by simp), by simpa using hcd⟩, ?_⟩
      refine (mem_iterate_of_readsOne h _ _ c').2 ?_
      cases d with
      | nil => left; exact Prod.ext hf (by simp)
      | cons z d =>
        right
        exact ⟨hf, z :: d, by simp, by simp,
          fun w hw => hall w (List.mem_cons_of_mem _ hw), rfl⟩

theorem rangeRE_eq_rangeShape : rangeRE = rangeShape (.plus digitRE) := rfl

theorem dateTimeRangeRE_eq_rangeShape : dateTimeRangeRE = rangeShape dateTime := rfl

theorem mem_run_comparisonRE (c c' : Cursor) :
    c' ∈ comparisonRE.run c ↔
      c'.1 = false ∧ ∃ p : String, p ∈ [">", ">=", "<", "<=", "*.."] ∧ c.2 = p.data ++ c'.2 := by
  obtain ⟨b, r⟩ := c
  obtain ⟨b', r'⟩ := c'
  simp only [comparisonRE, mem_run_capture, mem_run_alternate, mem_run_concat,
    mem_run_literal, List.mem_cons, List.mem_singleton, List.not_mem_nil, or_false]
  constructor
  · rintro (⟨hf, h⟩ | ⟨m, ⟨_, h1⟩, hf, h2⟩ | ⟨hf, h⟩ | ⟨m, ⟨_, h1⟩, hf, h2⟩ |
      ⟨m, ⟨_, h1⟩, m2, ⟨_, h2⟩, hf, h3⟩)
    · exact ⟨hf, ">", by simp, by simpa using h⟩
    · exact ⟨hf, ">=", by simp, by simp [h1, h2]⟩
    · exact ⟨hf, "<", by simp, by simpa using h⟩
    · exact ⟨hf, "<=", by simp, by simp [h1, h2]⟩
    · exact ⟨hf, "*..", by simp, by simp [h1, h2, h3]⟩
  · rintro ⟨hf, p, (rfl | rfl | rfl | rfl | rfl), h⟩
    · exact Or.inl ⟨hf, by simpa using h⟩
    · exact Or.inr (Or.inl ⟨(false, '=' :: r'), ⟨rfl, by simpa using h⟩, hf, rfl⟩)
    · exact Or.inr (Or.inr (Or.inl ⟨hf, by simpa using h⟩))
    · exact Or.inr (Or.inr (Or.inr (Or.inl
        ⟨(false, '=' :: r'), ⟨rfl, by simpa using h⟩, hf, rfl⟩)))
    · exact Or.inr (Or.inr (Or.inr (Or.inr
        ⟨(false, '.' :: '.' :: r'), ⟨rfl, by simpa using h⟩,
          (false, '.' :: r'), ⟨rfl, rfl⟩, hf, rfl⟩)))

theorem readsToken_plus {r : Regexp} {p : Char → Prop} (h : ReadsOne r p) :
    ReadsToken (.plus r) p :=
  fun c c' => mem_run_plus_of_readsOne h c c'

theorem matchString_iff (re : Regexp) (v : String) :
    re.MatchString v = true ↔ ∃ c ∈ startCursors v.data, ∃ c', c' ∈ re.run c := by
  simp only [Regexp.MatchString, List.any_eq_true, Bool.not_eq_true', List.isEmpty_eq_false]
  constructor
  · rintro ⟨c, hc, hne⟩
    exact ⟨c, hc, List.exists_mem_of_ne_nil _ hne⟩
  · rintro ⟨c, hc, c', hc'⟩
    exact ⟨c, hc, List.ne_nil_of_mem hc'⟩

theorem matchString_beginText (re : Regexp) (v : String) :
    (Regexp.concat .beginText re).MatchString v = true ↔ ∃ c', c' ∈ re.run (true, v.data) := by
  rw [matchString_iff]
  constructor
  · rintro ⟨c, hc, c', hc'⟩
    obtain ⟨m, hm, hm'⟩ := (mem_run_concat _ _ _ _).1 hc'
    obtain ⟨h1, rfl⟩ := (mem_run_beginText _ _).1 hm
    simp only [startCursors, List.mem_cons, List.mem_map] at hc
    rcases hc with rfl | ⟨r, _, rfl⟩
    · exact ⟨c', hm'⟩
    · simp at h1
  · rintro ⟨c', hc'⟩
    exact ⟨(true, v.data), by simp [startCursors], c',
      (mem_run_concat _ _ _ _).2 ⟨_, (mem_run_beginText _ _).2 ⟨rfl, rfl⟩, hc'⟩⟩

theorem mem_run_upperBound {S : Regexp} {p : Char → Prop} (h : ReadsToken S p)
    (c c' : Cursor) :
    c' ∈ (Regexp.capture (.concat (.literal '.') (.concat (.literal '.')
        (.capture (.alternate (.literal '*') S))))).run c ↔
      c'.1 = false ∧ (c.2 = '.' :: '.' :: '*' :: c'.2
        ∨ ∃ e, e ≠ [] ∧ (∀ y ∈ e, p y) ∧ c.2 = '.' :: '.' :: (e ++ c'.2)) := by
  simp only [mem_run_capture, mem_run_concat, mem_run_alternate, mem_run_literal, h _ _]
  constructor
  · rintro ⟨m, ⟨_, h1⟩, m2, ⟨_, h2⟩, (⟨hf, h3⟩ | ⟨hf, e, he, hall, h3⟩)⟩
    · exact ⟨hf, Or.inl (by rw [h1, h2, h3])⟩
    · exact ⟨hf, Or.inr ⟨e, he, hall, by rw [h1, h2, h3]⟩⟩
  · rintro ⟨hf, (h1 | ⟨e, he, hall, h1⟩)⟩
    · exact ⟨(false, '.' :: '*' :: c'.2), ⟨rfl, h1⟩, (false, '*' :: c'.2), ⟨rfl, rfl⟩,
        Or.inl ⟨hf, rfl⟩⟩
    · exact ⟨(false, '.' :: (e ++ c'.2)), ⟨rfl, h1⟩, (false, e ++ c'.2), ⟨rfl, rfl⟩,
        Or.inr ⟨hf, e, he, hall, rfl⟩⟩

theorem string_ne_empty_iff (s : String) : s ≠ "" ↔ s.data ≠ [] := by
  rw [Ne, String.ext_iff]

theorem matchString_rangeShape {S : Regexp} {tok : Char → Bool}
    (h : ReadsToken S (fun y => tok y = true)) (v : String) :
    (rangeShape S).MatchString v = true ↔ IsRangeSyntax tok v := by
  unfold rangeShape
  rw [matchString_beginText]
  simp only [mem_run_concat, mem_run_quest, mem_run_comparisonRE, mem_run_upperBound h,
    mem_run_endText, h _ _]
  constructor
  · rintro ⟨c', c1, hc1, c2, ⟨_, d, hd, hall, hc2⟩, c3, hc3, hend, rfl⟩
    -- the prefix
    have hp : ∃ p : String, p ∈ ["", ">", ">=", "<", "<=", "*.."] ∧ v.data = p.data ++ c1.2 := by
      rcases hc1 with ⟨_, p, hp, hv⟩ | rfl
      · exact ⟨p, List.mem_cons_of_mem _ hp, hv⟩
      · exact ⟨"", by simp, by simp⟩
    obtain ⟨p, hp, hv⟩ := hp
    -- the upper bound
    have ht : ∃ t : String, c2.2 = t.data ∧ (t = "" ∨ t = "..*" ∨
        ∃ e : String, e ≠ "" ∧ (∀ c ∈ e.data, tok c = true) ∧ t = ".." ++ e) := by
      rcases hc3 with ⟨_, (h3 | ⟨e, he, hall3, h3⟩)⟩ | rfl
      · exact ⟨"..*", by simp [h3, hend], Or.inr (Or.inl rfl)⟩
      · refine ⟨".." ++ String.mk e, by simp [h3, hend], Or.inr (Or.inr ⟨String.mk e, ?_, hall3, rfl⟩)⟩
        exact (string_ne_empty_iff _).2 he
      · exact ⟨"", by simp [hend], Or.inl rfl⟩
    obtain ⟨t, ht, htt⟩ := ht
    refine ⟨p, String.mk d, t, ?_, hp, (string_ne_empty_iff _).2 hd, hall, htt⟩
    apply String.ext
    simp [hv, hc2, ht]
  · rintro ⟨p, d, t, rfl, hp, hd, hall, ht⟩
    have hd' : d.data ≠ [] := (string_ne_empty_iff _).1 hd
    refine ⟨(false, []), (if p = "" then true else false, d.data ++ t.data), ?_,
      (false, t.data), ⟨rfl, d.data, hd', hall, rfl⟩, ?_⟩
    · by_cases hpe : p = ""
      · right
        subst hpe
        simp
      · left
        refine ⟨by simp [hpe], p, ?_, by simp [List.append_assoc]⟩
        simp only [List.mem_cons] at hp
        rcases hp with hp | hp
        · exact absurd hp hpe
        · simpa using hp
    · rcases ht with rfl | rfl | ⟨e, he, halle, rfl⟩
      · exact ⟨(false, []), Or.inr rfl, rfl, rfl⟩
      · exact ⟨(false, []), Or.inl ⟨rfl, Or.inl rfl⟩, rfl, rfl⟩
      · exact ⟨(false, []), Or.inl ⟨rfl, Or.inr ⟨e.data, (string_ne_empty_iff _).1 he, halle,
          by simp⟩⟩, rfl, rfl⟩

theorem digit_range_iff (y : Char) : ('0' ≤ y ∧ y ≤ '9') ↔ y.isDigit = true := by
  simp only [Char.isDigit, Char.le_def, Bool.and_eq_true, decide_eq_true_eq, ge_iff_le]
  rfl

theorem readsOne_digitRE : ReadsOne digitRE (fun y => y.isDigit = true) := by
  intro c c'
  simp only [digitRE, mem_run_charClass, digit_range_iff]

theorem readsOne_dateChar :
    ReadsOne (.capture (.alternate digitRE (.alternate (.literal '-')
      (.alternate (.literal '+') (.alternate (.literal ':') (.literal 'T'))))))
      (fun y => isDateChar y = true) := by
  intro c c'
  simp only [mem_run_capture, mem_run_alternate, mem_run_literal, readsOne_digitRE _ _,
    isDateChar, Bool.or_eq_true, beq_iff_eq]
  constructor
  · rintro (⟨hf, y, hy, h⟩ | ⟨hf, h⟩ | ⟨hf, h⟩ | ⟨hf, h⟩ | ⟨hf, h⟩)
    · exact ⟨hf, y, Or.inl (Or.inl (Or.inl (Or.inl hy))), h⟩
    · exact ⟨hf, '-', Or.inl (Or.inl (Or.inl (Or.inr rfl))), h⟩
    · exact ⟨hf, '+', Or.inl (Or.inl (Or.inr rfl)), h⟩
    · exact ⟨hf, ':', Or.inl (Or.inr rfl), h⟩
    · exact ⟨hf, 'T', Or.inr rfl, h⟩
  · rintro ⟨hf, y, ((((hy | rfl) | rfl) | rfl) | rfl), h⟩
    · exact Or.inl ⟨hf, y, hy, h⟩
    · exact Or.inr (Or.inl ⟨hf, h⟩)
    · exact Or.inr (Or.inr (Or.inl ⟨hf, h⟩))
    · exact Or.inr (Or.inr (Or.inr (Or.inl ⟨hf, h⟩)))
    · exact Or.inr (Or.inr (Or.inr (Or.inr ⟨hf, h⟩)))

theorem rangeRE_matchString_iff (v : String) :
    rangeRE.MatchString v = true ↔ IsRangeSyntax Char.isDigit v :=
  matchString_rangeShape (readsToken_plus readsOne_digitRE) v

theorem dateTimeRangeRE_matchString_iff (v : String) :
    dateTimeRangeRE.MatchString v = true ↔ IsRangeSyntax isDateChar v :=
  matchString_rangeShape (readsToken_plus readsOne_dateChar) v

/-! ## Qualifiers: `Set` -/

/-- C1: when the validator of a qualifier rejects `v`, `Set v` returns exactly the
validator's error and leaves the qualifier as it was, so `IsSet`, `String` and the stored
value are what they were before the call. -/
theorem Set_rejected_unchanged (printTable : Char → Bool) (q : qualifier)
    (validate : validator) (v err : String)
    (hval : q.validator = some validate) (hrej : validate v = some err) :
    (q.Set v).1 = some err ∧ (q.Set v).2 = q ∧ (q.Set v).2.IsSet = q.IsSet
      ∧ (q.Set v).2.String printTable = q.String printTable
      ∧ (q.Set v).2.value = q.value := by
  have h : q.Set v = (some err, q) := by simp [qualifier.Set, hval, hrej]
  simp [h]

theorem Set_rejected_unchanged_witness :
    ((NewQualifier "is" "string" "public" (some (OptsValidator ["public", "private"]))).Set
        "secret").1 = some "secret is not included in public, private"
      ∧ ((NewQualifier "is" "string" "public"
          (some (OptsValidator ["public", "private"]))).Set "secret").2.value = "public" :=
  have h := Set_rejected_unchanged (fun _ => false)
    (NewQualifier "is" "string" "public" (some (OptsValidator ["public", "private"])))
    (OptsValidator ["public", "private"]) "secret"
    "secret is not included in public, private" rfl (by decide)
  ⟨h.1, h.2.2.2.2⟩

/-- C2: `Set v` returns no error exactly when the validator is nil or accepts `v`; then
the qualifier is set and stores `v` itself, and the key and the kind never change. -/
theorem Set_ok_iff (q : qualifier) (v : String) :
    ((q.Set v).1 = none ↔
        (q.validator = none ∨ ∃ validate, q.validator = some validate ∧ validate v = none))
      ∧ ((q.Set v).1 = none → (q.Set v).2.IsSet = true ∧ (q.Set v).2.value = v)
      ∧ (q.Set v).2.Key = q.Key ∧ (q.Set v).2.Type = q.Type := by
  unfold qualifier.Set
  cases hval : q.validator with
  | none => simp [qualifier.IsSet, qualifier.Key, qualifier.Type]
  | some validate =>
    cases hv : validate v with
    | none => simp [qualifier.IsSet, qualifier.Key, qualifier.Type, hv]
    | some err => simp [qualifier.Key, qualifier.Type, hv]

theorem Set_ok_iff_witness :
    ((NewQualifier "language" "string" "" none).Set " Go ").2.IsSet = true
      ∧ ((NewQualifier "language" "string" "" none).Set " Go ").2.value = " Go " :=
  (Set_ok_iff (NewQualifier "language" "string" "" none) " Go ").2.1 rfl

/-! ## Option validators -/

/-- C3: `OptsValidator opts` accepts `v` exactly when `v` is a member of `opts` (equality
of strings, so case matters); with no options every value is rejected. -/
theorem OptsValidator_accepts_iff (opts : List String) (v : String) :
    (OptsValidator opts v = none ↔ v ∈ opts) ∧ OptsValidator [] v ≠ none
      ∧ OptsValidator ["asc", "desc"] "ASC" ≠ none := by
  refine ⟨?_, by simp [OptsValidator, isIncluded], by decide⟩
  unfold OptsValidator
  by_cases h : isIncluded v opts = true
  · simp [h, (isIncluded_eq_true_iff v opts).1 h]
  · have hm : v ∉ opts := fun e => h ((isIncluded_eq_true_iff v opts).2 e)
    simp [h, hm]

/-- C4: `MultiOptsValidator opts` accepts `v` exactly when every token of `v` split at
the commas is a member of `opts`; when it rejects, the message quotes the leftmost token
that is not a member. The tokens are those of the comma-separated input: the empty
string has the single empty token, and joining tokens that hold no comma with commas and
splitting again gives the tokens back, untrimmed. -/
theorem MultiOptsValidator_accepts_iff (printTable : Char → Bool) (opts : List String)
    (v : String) :
    (MultiOptsValidator printTable opts v = none ↔ ∀ t ∈ Split v ',', t ∈ opts)
      ∧ (∀ t, (Split v ',').find? (fun u => decide (u ∉ opts)) = some t →
          MultiOptsValidator printTable opts v
            = some (Quote printTable t ++ " is not included in " ++ Join opts ", "))
      ∧ Split "" ',' = [""]
      ∧ (∀ t ts, (∀ u ∈ t :: ts, ',' ∉ u.data) → Split (Join (t :: ts) ",") ',' = t :: ts)
      ∧ Split "name, readme" ',' = ["name", " readme"] := by
  refine ⟨multiOptsLoop_eq_none_iff printTable opts _,
    fun t ht => multiOptsLoop_first printTable opts _ t ht, by decide,
    fun t ts h => Split_Join_cons ',' t ts h, by decide⟩

theorem MultiOptsValidator_accepts_iff_witness :
    MultiOptsValidator (fun _ => false) ["name", "description", "readme"] "name,descripton"
      = some "\"descripton\" is not included in name, description, readme" :=
  (MultiOptsValidator_accepts_iff (fun _ => false) ["name", "description", "readme"]
    "name,descripton").2.1 "descripton" (by decide)

/-! ## Range and date validators -/

/-- C5: `RangeValidator` accepts `v` exactly when `v` is, in full, an optional prefix
among `>`, `>=`, `<`, `<=`, `*..`, then one or more ASCII digits, then optionally `..`
followed by `*` or by one or more ASCII digits; it accepts `5`, `1..10`, `>=5`, `*..10`
and rejects `5..1..2`, `abc` and the empty string. -/
theorem RangeValidator_accepts_iff (v : String) :
    (RangeValidator v = none ↔ IsRangeSyntax Char.isDigit v)
      ∧ RangeValidator "5" = none ∧ RangeValidator "1..10" = none
      ∧ RangeValidator ">=5" = none ∧ RangeValidator "*..10" = none
      ∧ RangeValidator "5..1..2" ≠ none ∧ RangeValidator "abc" ≠ none
      ∧ RangeValidator "" ≠ none := by
  refine ⟨?_, by decide, by decide, by decide, by decide, by decide, by decide, by decide⟩
  rw [← rangeRE_matchString_iff]
  unfold RangeValidator
  cases rangeRE.MatchString v <;> simp

/-- C6: `DateValidator` accepts `v` exactly when `v` is, in full, an optional prefix among
`>`, `>=`, `<`, `<=`, `*..`, then a token, then optionally `..` followed by `*` or by
another token, a token being one or more characters among the ASCII digits, `-`, `+`,
`:` and `T`; it accepts `2021-01-01`, `>2021-01-01T00:00:00`, `2021-01-01..*` and rejects
`not-a-date`. -/
theorem DateValidator_accepts_iff (v : String) :
    (DateValidator v = none ↔ IsRangeSyntax isDateChar v)
      ∧ DateValidator "2021-01-01" = none ∧ DateValidator ">2021-01-01T00:00:00" = none
      ∧ DateValidator "2021-01-01..*" = none ∧ DateValidator "not-a-date" ≠ none := by
  refine ⟨?_, by decide, by decide, by decide, by decide⟩
  rw [← dateTimeRangeRE_matchString_iff]
  unfold DateValidator
  cases dateTimeRangeRE.MatchString v <;> simp

/-! ## Boolean validator -/

/-- C7, at the input where the sentence fails: `BoolValidator` accepts `1`, so it does not
both accept `true` and `false` and reject `yes`, `1` and the empty string. -/
theorem BoolValidator_accepts_one :
    BoolValidator "1" = none
      ∧ ¬ (BoolValidator "true" = none ∧ BoolValidator "false" = none
        ∧ BoolValidator "yes" ≠ none ∧ BoolValidator "1" ≠ none
        ∧ BoolValidator "" ≠ none) := by
  decide

/-- C7, amended: `BoolValidator` accepts `true`, `false` and `1`, and rejects `yes` and the
empty string. -/
theorem BoolValidator_examples :
    BoolValidator "true" = none ∧ BoolValidator "false" = none ∧ BoolValidator "1" = none
      ∧ BoolValidator "yes" ≠ none ∧ BoolValidator "" ≠ none := by
  decide

/-- C8: `BoolValidator` accepts `v` exactly when `v` is one of the twelve literals of
`strconv.ParseBool`; a literal in mixed case or with a blank around it is rejected. -/
theorem BoolValidator_accepts_iff (v : String) :
    (BoolValidator v = none ↔
        v ∈ ["1", "t", "T", "TRUE", "true", "True", "0", "f", "F", "FALSE", "false", "False"])
      ∧ BoolValidator "tRue" ≠ none ∧ BoolValidator " true" ≠ none
      ∧ BoolValidator "true " ≠ none := by
  refine ⟨?_, by decide, by decide, by decide⟩
  unfold BoolValidator ParseBool
  by_cases h1 : v = "1" ∨ v = "t" ∨ v = "T" ∨ v = "TRUE" ∨ v = "true" ∨ v = "True"
  · simp only [h1, if_true, List.mem_cons, List.mem_singleton, List.not_mem_nil, or_false,
      true_iff]
    tauto
  · by_cases h2 : v = "0" ∨ v = "f" ∨ v = "F" ∨ v = "FALSE" ∨ v = "false" ∨ v = "False"
    · simp only [h1, h2, if_true, if_false, List.mem_cons, List.mem_singleton,
        List.not_mem_nil, or_false, true_iff]
      tauto
    · simp only [h1, h2, if_false, List.mem_cons, List.mem_singleton, List.not_mem_nil,
        or_false]
      constructor
      · intro h; cases h
      · intro h; exfalso; tauto

/-! ## `ListSet` -/

theorem index_assign (m : StringMap) (k s k' : String) :
    (m.assign k s).index k' = if k' = k then some s else m.index k' := by
  unfold StringMap.assign StringMap.index
  by_cases h : k' = k
  · subst h
    simp
  · have hk : (k == k') = false := by simpa using fun e => h e.symm
    simp only [List.find?_cons, hk, h, if_false]
    congr 1
    induction m with
    | nil => rfl
    | cons e m ih =>
      by_cases he : e.1 = k
      · have he' : (e.1 == k') = false := by
          rw [he]; exact hk
        have hf : (e.1 != k) = false := by simp [he]
        rw [List.filter_cons, hf, List.find?_cons, he']
        simpa using ih
      · have hf : (e.1 != k) = true := by simp [he]
        rw [List.filter_cons, hf]
        simp only [if_true, List.find?_cons]
        cases e.1 == k' with
        | true => rfl
        | false => simpa using ih

theorem index_foldl_listSet (printTable : Char → Bool) (qs : Qualifiers) (acc : StringMap)
    (k s : String)
    (hd : qs.Pairwise (fun a b => a.2.IsSet = true → b.2.IsSet = true → a.2.Key ≠ b.2.Key)) :
    (qs.foldl (fun m e =>
        if e.2.IsSet then m.assign e.2.Key (e.2.String printTable) else m) acc).index k = some s
      ↔ (∃ e ∈ qs, e.2.IsSet = true ∧ e.2.Key = k ∧ e.2.String printTable = s)
        ∨ ((∀ e ∈ qs, e.2.IsSet = true → e.2.Key ≠ k) ∧ acc.index k = some s) := by
  induction qs generalizing acc with
  | nil => simp
  | cons e qs ih =>
    obtain ⟨he, hqs⟩ := List.pairwise_cons.1 hd
    rw [List.foldl_cons, ih _ hqs]
    by_cases hset : e.2.IsSet = true
    · simp only [hset, if_true, index_assign]
      constructor
      · rintro (⟨e', he', h⟩ | ⟨hno, hacc⟩)
        · exact Or.inl ⟨e', List.mem_cons_of_mem _ he', h⟩
        · by_cases hk : k = e.2.Key
          · rw [if_pos hk] at hacc
            exact Or.inl ⟨e, List.mem_cons_self _ _, hset, hk.symm, Option.some.inj hacc⟩
          · rw [if_neg hk] at hacc
            refine Or.inr ⟨?_, hacc⟩
            intro e' he' hs'
            rcases List.mem_cons.1 he' with rfl | he'
            · exact fun e => hk e.symm
            · exact hno e' he' hs'
      · rintro (⟨e', he', hs', hk', hstr⟩ | ⟨hno, hacc⟩)
        · rcases List.mem_cons.1 he' with rfl | he'
          · refine Or.inr ⟨?_, by rw [if_pos hk'.symm, hstr]⟩
            intro b hb hbs
            exact hk' ▸ (he b hb hset hbs).symm
          · exact Or.inl ⟨e', he', hs', hk', hstr⟩
        · have hk : ¬ k = e.2.Key := fun h => hno e (List.mem_cons_self _ _) hset h.symm
          refine Or.inr ⟨fun b hb => hno b (List.mem_cons_of_mem _ hb), by rw [if_neg hk]; exact hacc⟩
    · simp only [hset]
      constructor
      · rintro (⟨e', he', h⟩ | ⟨hno, hacc⟩)
        · exact Or.inl ⟨e', List.mem_cons_of_mem _ he', h⟩
        · refine Or.inr ⟨?_, hacc⟩
          intro e' he' hs'
          rcases List.mem_cons.1 he' with rfl | he'
          · exact absurd hs' hset
          · exact hno e' he' hs'
      · rintro (⟨e', he', hs', h⟩ | ⟨hno, hacc⟩)
        · rcases List.mem_cons.1 he' with rfl | he'
          · exact absurd hs' hset
          · exact Or.inl ⟨e', he', hs', h⟩
        · exact Or.inr ⟨fun b hb => hno b (List.mem_cons_of_mem _ hb), hacc⟩

/-- C9: for a collection whose entries have pairwise distinct keys, the mapping `ListSet`
returns holds `s` under `k` exactly when some entry is set, has the key `k` and
serialises to `s`. A key whose entries are all unset is absent, whatever their values;
the mapping is keyed by `Key`, not by the label of the entry: a set `Visibility` entry
appears under `is`. -/
theorem ListSet_index_iff (printTable : Char → Bool) (qs : Qualifiers)
    (hkeys : qs.Pairwise (fun a b => a.2.Key ≠ b.2.Key)) (k s : String) :
    ((qs.ListSet printTable).index k = some s
        ↔ ∃ e ∈ qs, e.2.IsSet = true ∧ e.2.Key = k ∧ e.2.String printTable = s)
      ∧ ((∀ e ∈ qs, e.2.Key = k → e.2.IsSet = false) → (qs.ListSet printTable).index k = none)
      ∧ Qualifiers.ListSet printTable
          [("Fork", NewQualifier "fork" "string" "false"
              (some (OptsValidator ["false", "true", "only"]))),
           ("Visibility", ((NewQualifier "is" "string" "public"
              (some (OptsValidator ["public", "private"]))).Set "private").2)]
          = [("is", "private")] := by
  have hmain : ∀ s', (qs.ListSet printTable).index k = some s'
      ↔ ∃ e ∈ qs, e.2.IsSet = true ∧ e.2.Key = k ∧ e.2.String printTable = s' := by
    intro s'
    have h := index_foldl_listSet printTable qs [] k s'
      (hkeys.imp (fun hab _ _ => hab))
    unfold Qualifiers.ListSet
    rw [h]
    simp [StringMap.index]
  refine ⟨hmain s, ?_, rfl⟩
  intro hunset
  cases hidx : (qs.ListSet printTable).index k with
  | none => rfl
  | some s' =>
    obtain ⟨e, he, hs, hk, _⟩ := (hmain s').1 hidx
    rw [hunset e he hk] at hs
    cases hs

theorem ListSet_index_iff_witness :
    (Qualifiers.ListSet (fun _ => false)
      [("Topic", ((NewQualifier "topic" "string" "" none).Set "help wanted").2),
       ("Repo", NewQualifier "repo" "string" "cli/cli" none)]).index "topic"
      = some "\"help wanted\"" :=
  (ListSet_index_iff (fun _ => false)
    [("Topic", ((NewQualifier "topic" "string" "" none).Set "help wanted").2),
     ("Repo", NewQualifier "repo" "string" "cli/cli" none)]
    (by decide) "topic" "\"help wanted\"").1.2
    ⟨("Topic", ((NewQualifier "topic" "string" "" none).Set "help wanted").2),
      by simp, rfl, rfl, by decide⟩

/-! ## `String` -/

theorem containsAny_special_iff (s : String) :
    ContainsAny s " \"\t\r\n" = true
      ↔ ∃ c ∈ s.data, c = ' ' ∨ c = '"' ∨ c = '\t' ∨ c = '\r' ∨ c = '\n' := by
  simp [ContainsAny, List.any_eq_true]

/-- C10, at the input where the sentence fails: a form feed is a white space character,
and a value that holds one (and no space, tab, carriage return, line feed or double
quote) is returned by `String` as it is, not wrapped in double quotes. -/
theorem String_formFeed_unquoted :
    (∃ c ∈ formFeedTopic.value.data, isWhiteSpace c = true)
      ∧ formFeedTopic.String (fun _ => true) = "a\x0cb"
      ∧ formFeedTopic.String (fun _ => true) ≠ Quote (fun _ => true) formFeedTopic.value
      ∧ (formFeedTopic.String (fun _ => true)).data.head? ≠ some '"' := by
  refine ⟨⟨Char.ofNat 12, by decide, by decide⟩, by decide, by decide, by decide⟩

/-- C10, amended: when the value of a qualifier holds a space, a tab, a carriage return,
a line feed or a double quote, `String` returns the value quoted by `strconv.Quote`, which
starts and ends with a double quote; the value `help wanted` gives `"help wanted"`. -/
theorem String_quoted_of_special (printTable : Char → Bool) (q : qualifier)
    (h : ∃ c ∈ q.value.data, c = ' ' ∨ c = '\t' ∨ c = '\r' ∨ c = '\n' ∨ c = '"') :
    q.String printTable = Quote printTable q.value
      ∧ (q.String printTable).data.head? = some '"'
      ∧ (q.String printTable).data.getLast? = some '"'
      ∧ ((NewQualifier "label" "string" "" none).Set "help wanted").2.String printTable
          = "\"help wanted\"" := by
  have hc : ContainsAny q.value " \"\t\r\n" = true := by
    rw [containsAny_special_iff]
    obtain ⟨c, hc, h⟩ := h
    exact ⟨c, hc, by tauto⟩
  have hq : q.String printTable = Quote printTable q.value := by
    simp [qualifier.String, hc]
  refine ⟨hq, ?_, ?_, ?_⟩
  · rw [hq]; simp [Quote]
  · rw [hq]
    simp only [Quote]
    rw [← List.cons_append, List.getLast?_append]
    simp
  · rfl

theorem String_quoted_of_special_witness :
    (NewQualifier "label" "string" "say \"hi\"" none).String (fun _ => false)
      = "\"say \\\"hi\\\"\"" :=
  (String_quoted_of_special (fun _ => false) (NewQualifier "label" "string" "say \"hi\"" none)
    ⟨' ', by decide, Or.inl rfl⟩).1.trans (by decide)

theorem String_eq_value_of_plain (printTable : Char → Bool) (q : qualifier)
    (h : ∀ c ∈ q.value.data, c ≠ ' ' ∧ c ≠ '\t' ∧ c ≠ '\r' ∧ c ≠ '\n' ∧ c ≠ '"') :
    q.String printTable = q.value := by
  have hc : ContainsAny q.value " \"\t\r\n" = false := by
    rw [← Bool.not_eq_true, containsAny_special_iff]
    rintro ⟨c, hc, hs⟩
    have := h c hc
    tauto
  simp [qualifier.String, hc]

/-- C11: when the value of a qualifier holds no space, tab, carriage return, line feed or
double quote, `String` returns the value itself; so after a `Set v` that returned no
error, with such a `v`, `String` is `v`. The value `>100` stays `>100`. -/
theorem String_verbatim (printTable : Char → Bool) (q : qualifier) (v : String) :
    ((∀ c ∈ q.value.data, c ≠ ' ' ∧ c ≠ '\t' ∧ c ≠ '\r' ∧ c ≠ '\n' ∧ c ≠ '"') →
        q.String printTable = q.value)
      ∧ ((q.Set v).1 = none →
          (∀ c ∈ v.data, c ≠ ' ' ∧ c ≠ '\t' ∧ c ≠ '\r' ∧ c ≠ '\n' ∧ c ≠ '"') →
          (q.Set v).2.String printTable = v)
      ∧ ((NewQualifier "stars" "string" "" (some RangeValidator)).Set ">100").2.String
          printTable = ">100" := by
  refine ⟨String_eq_value_of_plain printTable q, ?_, rfl⟩
  intro hok hv
  have hval : (q.Set v).2.value = v := by
    unfold qualifier.Set at hok ⊢
    cases hq : q.validator with
    | none => rfl
    | some validate =>
      cases hv' : validate v with
      | none => simp [hv']
      | some err => simp [hq, hv'] at hok
  have h := String_eq_value_of_plain printTable (q.Set v).2 (by rw [hval]; exact hv)
  rw [h, hval]

theorem String_verbatim_witness :
    ((NewQualifier "language" "string" "" none).Set "c++").2.String (fun _ => false) = "c++" :=
  (String_verbatim (fun _ => false) (NewQualifier "language" "string" "" none) "c++").2.1
    rfl (by decide)

/-! ## The limit check of the command -/

/-- C12: when the output flags are not in conflict, `RunE` returns the flag error
`--limit must be between 1 and 1000` exactly when the limit is below 1 or above 1000,
and then neither `runF` nor `reposRun` is called; otherwise it hands the options over
with the limit as it was. The limits 0 and 1001 are rejected, 1 and 1000 are not. -/
theorem RunE_limit {E : Type} (mutuallyExclusive : String → List Bool → Option E)
    (flagErrorf : String → E) (hasRunF : Bool) (opts : ReposOptions) (args : List String)
    (hmodes : mutuallyExclusive "expected exactly one of `--jq`, `--template`, or `--web`"
      [opts.GoTemplate != "", opts.JqExpression != "", opts.WebMode] = none) :
    ((opts.Query.Limit < 1 ∨ opts.Query.Limit > 1000) →
        RunE mutuallyExclusive flagErrorf hasRunF opts args
          = .returned (flagErrorf "`--limit` must be between 1 and 1000"))
      ∧ (¬ (opts.Query.Limit < 1 ∨ opts.Query.Limit > 1000) →
          RunE mutuallyExclusive flagErrorf hasRunF opts args
            = if hasRunF then .runF (opts.setKeywords args)
              else .reposRun (opts.setKeywords args))
      ∧ (opts.setKeywords args).Query.Limit = opts.Query.Limit
      ∧ ((∃ err, RunE mutuallyExclusive flagErrorf hasRunF opts args = .returned err)
          ↔ (opts.Query.Limit < 1 ∨ opts.Query.Limit > 1000))
      ∧ (∀ o : ReposOptions, o.Query.Limit = 0 ∨ o.Query.Limit = 1001 →
          RunE (fun _ _ => none) flagErrorf hasRunF o args
            = .returned (flagErrorf "`--limit` must be between 1 and 1000"))
      ∧ (∀ o : ReposOptions, o.Query.Limit = 1 ∨ o.Query.Limit = 1000 →
          RunE (fun _ _ => none) flagErrorf true o args = .runF (o.setKeywords args)) := by
  have hbad : (opts.Query.Limit < 1 ∨ opts.Query.Limit > 1000) →
      RunE mutuallyExclusive flagErrorf hasRunF opts args
        = .returned (flagErrorf "`--limit` must be between 1 and 1000") := by
    intro h
    have h' : (opts.setKeywords args).Query.Limit < 1
        ∨ (opts.setKeywords args).Query.Limit > 1000 := h
    have hm : mutuallyExclusive "expected exactly one of `--jq`, `--template`, or `--web`"
        [(opts.setKeywords args).GoTemplate != "", (opts.setKeywords args).JqExpression != "",
          (opts.setKeywords args).WebMode] = none := hmodes
    simp only [RunE, hm, h', if_true]
  have hgood : ¬ (opts.Query.Limit < 1 ∨ opts.Query.Limit > 1000) →
      RunE mutuallyExclusive flagErrorf hasRunF opts args
        = if hasRunF then .runF (opts.setKeywords args)
          else .reposRun (opts.setKeywords args) := by
    intro h
    have h' : ¬ ((opts.setKeywords args).Query.Limit < 1
        ∨ (opts.setKeywords args).Query.Limit > 1000) := h
    have hm : mutuallyExclusive "expected exactly one of `--jq`, `--template`, or `--web`"
        [(opts.setKeywords args).GoTemplate != "", (opts.setKeywords args).JqExpression != "",
          (opts.setKeywords args).WebMode] = none := hmodes
    simp only [RunE, hm, h', if_false]
  refine ⟨hbad, hgood, rfl, ⟨?_, fun h => ⟨_, hbad h⟩⟩, ?_, ?_⟩
  · rintro ⟨err, herr⟩
    by_contra h
    rw [hgood h] at herr
    cases hasRunF <;> simp at herr
  · intro o ho
    have h' : (o.setKeywords args).Query.Limit < 1 ∨ (o.setKeywords args).Query.Limit > 1000 := by
      show o.Query.Limit < 1 ∨ o.Query.Limit > 1000
      rcases ho with ho | ho <;> rw [ho] <;> decide
    simp only [RunE, h', if_true]
  · intro o ho
    have h' : ¬ ((o.setKeywords args).Query.Limit < 1
        ∨ (o.setKeywords args).Query.Limit > 1000) := by
      show ¬ (o.Query.Limit < 1 ∨ o.Query.Limit > 1000)
      rcases ho with ho | ho <;> rw [ho] <;> decide
    simp only [RunE, h', if_false, if_true]

theorem RunE_limit_witness :
    RunE (fun _ _ => (none : Option String)) id false
        ⟨"", "", ⟨[], "repositories", 1001, (NewSearchQuery (fun _ => false)).Order,
          (NewSearchQuery (fun _ => false)).Qualifiers,
          (NewSearchQuery (fun _ => false)).SortBy⟩, false⟩ ["cli"]
      = .returned "`--limit` must be between 1 and 1000" :=
  (RunE_limit (fun _ _ => (none : Option String)) id false
    ⟨"", "", ⟨[], "repositories", 1001, (NewSearchQuery (fun _ => false)).Order,
      (NewSearchQuery (fun _ => false)).Qualifiers,
      (NewSearchQuery (fun _ => false)).SortBy⟩, false⟩ ["cli"] rfl).1 (by decide)

/-! ## Sequences of `Set` calls -/

theorem Set_of_ok (q : qualifier) (v : String) (h : (q.Set v).1 = none) :
    (q.Set v).2 = ⟨q.key, q.kind, true, q.validator, v⟩
      ∧ (q.validator = none ∨ ∃ validate, q.validator = some validate ∧ validate v = none) := by
  unfold qualifier.Set at h ⊢
  cases hq : q.validator with
  | none => simp
  | some validate =>
    cases hv : validate v with
    | none => simp [hv]
    | some err => simp [hq, hv] at h

theorem Set_of_error (q : qualifier) (v err : String) (h : (q.Set v).1 = some err) :
    (q.Set v).2 = q := by
  unfold qualifier.Set at h ⊢
  cases hq : q.validator with
  | none => simp [hq] at h
  | some validate =>
    cases hv : validate v with
    | none => simp [hq, hv] at h
    | some err => simp [hv]

theorem succeeded_cons (v : String) (vs : List String) (e : Option String)
    (errs : List (Option String)) :
    succeeded (v :: vs) (e :: errs)
      = if e.isNone then v :: succeeded vs errs else succeeded vs errs := by
  cases e <;> simp [succeeded, List.filter_cons]

theorem setEach_spec (q : qualifier) (vs : List String) :
    (setEach q vs).2.validator = q.validator
      ∧ (setEach q vs).2.key = q.key ∧ (setEach q vs).2.kind = q.kind
      ∧ (none ∈ (setEach q vs).1 ↔ succeeded vs (setEach q vs).1 ≠ [])
      ∧ ((setEach q vs).2.set = true ↔ q.set = true ∨ succeeded vs (setEach q vs).1 ≠ [])
      ∧ (setEach q vs).2.value = ((succeeded vs (setEach q vs).1).getLast?).getD q.value
      ∧ ∀ v ∈ succeeded vs (setEach q vs).1,
          q.validator = none ∨ ∃ validate, q.validator = some validate ∧ validate v = none := by
  induction vs generalizing q with
  | nil => simp [setEach, succeeded]
  | cons v vs ih =>
    obtain ⟨h1, h2, h3, h4, h5, h6, h7⟩ := ih (q.Set v).2
    simp only [setEach, succeeded_cons]
    cases he : (q.Set v).1 with
    | none =>
      obtain ⟨hq, hacc⟩ := Set_of_ok q v he
      rw [hq] at h1 h2 h3 h5 h6 h7
      simp only [Option.isNone_none, if_true, List.mem_cons, true_or, ne_eq, not_false_eq_true,
        iff_true, or_true, List.getLast?_cons, Option.getD_some, reduceCtorEq, true_and]
      refine ⟨by rw [hq]; exact h1, by rw [hq]; exact h2, by rw [hq]; exact h3, ?_, ?_, ?_⟩
      · rw [hq]; exact h5.2 (Or.inl rfl)
      · rw [hq]; exact h6
      · rintro w (rfl | hw)
        · exact hacc
        · rw [hq] at hw
          exact h7 w hw
    | some err =>
      have hq := Set_of_error q v err he
      rw [hq] at h1 h2 h3 h4 h5 h6 h7
      rw [hq]
      simp only [Option.isNone_some, Bool.false_eq_true, if_false, List.mem_cons, reduceCtorEq,
        false_or]
      exact ⟨h1, h2, h3, h4, h5, h6, h7⟩

/-- C13: start from `NewQualifier` (or `NewParameter`, which builds the same value) and
call `Set` with any values in turn. The qualifier is then set exactly when one of the
calls returned no error; and when it is set, its value is the argument of the last call
that returned no error, and the validator is nil or accepts that value. Before any call
the qualifier is not set and holds the default value. -/
theorem setEach_invariant (key kind value : String) (validate : Option validator)
    (vs : List String) :
    ((setEach (NewQualifier key kind value validate) vs).2.IsSet = true
        ↔ none ∈ (setEach (NewQualifier key kind value validate) vs).1)
      ∧ ((setEach (NewQualifier key kind value validate) vs).2.IsSet = true →
          (succeeded vs (setEach (NewQualifier key kind value validate) vs).1).getLast?
              = some (setEach (NewQualifier key kind value validate) vs).2.value
            ∧ (validate = none ∨ ∃ f, validate = some f
                ∧ f (setEach (NewQualifier key kind value validate) vs).2.value = none))
      ∧ (NewQualifier key kind value validate).IsSet = false
      ∧ (NewQualifier key kind value validate).value = value
      ∧ NewParameter key kind value validate = NewQualifier key kind value validate := by
  obtain ⟨_, _, _, h4, h5, h6, h7⟩ := setEach_spec (NewQualifier key kind value validate) vs
  have hset : (setEach (NewQualifier key kind value validate) vs).2.IsSet = true
      ↔ succeeded vs (setEach (NewQualifier key kind value validate) vs).1 ≠ [] := by
    rw [qualifier.IsSet, h5]
    simp [NewQualifier]
  refine ⟨by rw [hset, h4], ?_, rfl, rfl, rfl⟩
  intro h
  have hne := hset.1 h
  obtain ⟨w, hw⟩ : ∃ w, (succeeded vs
      (setEach (NewQualifier key kind value validate) vs).1).getLast? = some w := by
    cases hl : (succeeded vs (setEach (NewQualifier key kind value validate) vs).1).getLast? with
    | none => exact absurd (List.getLast?_eq_none_iff.1 hl) hne
    | some w => exact ⟨w, rfl⟩
  have hval : (setEach (NewQualifier key kind value validate) vs).2.value = w := by
    rw [h6, hw]; rfl
  rw [hval]
  exact ⟨hw, h7 w (List.mem_of_mem_getLast? hw)⟩

theorem setEach_invariant_witness :
    (succeeded ["oops", "only", "nope", "true", ""]
        (setEach (NewQualifier "fork" "string" "false"
          (some (OptsValidator ["false", "true", "only"])))
          ["oops", "only", "nope", "true", ""]).1).getLast?
      = some (setEach (NewQualifier "fork" "string" "false"
          (some (OptsValidator ["false", "true", "only"])))
          ["oops", "only", "nope", "true", ""]).2.value :=
  ((setEach_invariant "fork" "string" "false" (some (OptsValidator ["false", "true", "only"]))
    ["oops", "only", "nope", "true", ""]).2.1 (by decide)).1

/-! ## `ListSet` does not depend on the order of iteration -/

theorem assign_keys_nodup (m : StringMap) (k s : String) (h : (m.map Prod.fst).Nodup) :
    ((m.assign k s).map Prod.fst).Nodup := by
  unfold StringMap.assign
  rw [List.map_cons, List.nodup_cons]
  constructor
  · simp only [List.mem_map, List.mem_filter, not_exists, not_and]
    rintro e ⟨_, hne⟩ hk
    simp [hk] at hne
  · exact List.Nodup.sublist ((List.filter_sublist m).map Prod.fst) h

theorem foldl_listSet_keys_nodup (printTable : Char → Bool) (qs : Qualifiers)
    (acc : StringMap) (h : (acc.map Prod.fst).Nodup) :
    ((qs.foldl (fun m e =>
      if e.2.IsSet then m.assign e.2.Key (e.2.String printTable) else m) acc).map
        Prod.fst).Nodup := by
  induction qs generalizing acc with
  | nil => exact h
  | cons e qs ih =>
    rw [List.foldl_cons]
    apply ih
    by_cases hset : e.2.IsSet = true
    · simp only [hset, if_true]
      exact assign_keys_nodup acc _ _ h
    · simp only [hset]
      exact h

theorem mem_iff_index (m : StringMap) (h : (m.map Prod.fst).Nodup) (k s : String) :
    (k, s) ∈ m ↔ m.index k = some s := by
  induction m with
  | nil => simp [StringMap.index]
  | cons e m ih =>
    rw [List.map_cons, List.nodup_cons] at h
    obtain ⟨hnot, hm⟩ := h
    have ih := ih hm
    unfold StringMap.index at ih ⊢
    rw [List.find?_cons]
    by_cases hk : e.1 = k
    · have hb : (e.1 == k) = true := by simpa using hk
      simp only [hb, Option.map_some', Option.some.injEq, List.mem_cons]
      constructor
      · rintro (heq | hmem)
        · rw [← heq]
        · exfalso
          apply hnot
          rw [hk]
          exact List.mem_map.2 ⟨(k, s), hmem, rfl⟩
      · intro hs
        left
        exact Prod.ext hk.symm hs.symm
    · have hb : (e.1 == k) = false := by simpa using hk
      simp only [hb, List.mem_cons]
      rw [← ih]
      constructor
      · rintro (heq | hmem)
        · exact absurd (by rw [← heq]) hk
        · exact hmem
      · exact fun hmem => Or.inr hmem

theorem listSetLoop_eq (printTable : Char → Bool) (qs : Qualifiers) (m : StringMap) :
    listSetLoop printTable qs m
      = (qs.foldl (fun m e =>
          if e.2.IsSet then m.assign e.2.Key (e.2.String printTable) else m) m, qs) := by
  induction qs generalizing m with
  | nil => rfl
  | cons e qs ih =>
    obtain ⟨label, v⟩ := e
    unfold listSetLoop
    by_cases hset : v.set = true
    · simp only [qualifier.callIsSet, qualifier.callKey, qualifier.callString, hset, if_true,
        ih, List.foldl_cons, qualifier.IsSet, qualifier.Key, qualifier.String]
    · simp only [qualifier.callIsSet, hset, ih, List.foldl_cons, qualifier.IsSet]
      rfl

theorem listSet_perm (printTable : Char → Bool) (qs qs' : Qualifiers)
    (hperm : qs.Perm qs')
    (hkeys : qs.Pairwise
      (fun a b => a.2.IsSet = true → b.2.IsSet = true → a.2.Key ≠ b.2.Key)) :
    (∀ k, (qs.ListSet printTable).index k = (qs'.ListSet printTable).index k)
      ∧ (qs.ListSet printTable).Perm (qs'.ListSet printTable) := by
  have hkeys' : qs'.Pairwise
      (fun a b => a.2.IsSet = true → b.2.IsSet = true → a.2.Key ≠ b.2.Key) :=
    (hperm.pairwise_iff (fun hab hb ha => (hab ha hb).symm)).1 hkeys
  have hidx : ∀ k, (qs.ListSet printTable).index k = (qs'.ListSet printTable).index k := by
    intro k
    apply Option.ext
    intro s
    have h1 := index_foldl_listSet printTable qs [] k s hkeys
    have h2 := index_foldl_listSet printTable qs' [] k s hkeys'
    simp only [StringMap.index, List.find?_nil, Option.map_none', reduceCtorEq, and_false,
      or_false] at h1 h2
    simp only [Option.mem_def, Qualifiers.ListSet, StringMap.index]
    rw [h1, h2]
    constructor
    · rintro ⟨e, he, h⟩
      exact ⟨e, hperm.mem_iff.1 he, h⟩
    · rintro ⟨e, he, h⟩
      exact ⟨e, hperm.mem_iff.2 he, h⟩
  have hn : ((qs.ListSet printTable).map Prod.fst).Nodup :=
    foldl_listSet_keys_nodup printTable qs [] List.nodup_nil
  have hn' : ((qs'.ListSet printTable).map Prod.fst).Nodup :=
    foldl_listSet_keys_nodup printTable qs' [] List.nodup_nil
  refine ⟨hidx, ?_⟩
  rw [List.perm_ext_iff_of_nodup (List.Nodup.of_map _ hn) (List.Nodup.of_map _ hn')]
  rintro ⟨k, s⟩
  rw [mem_iff_index _ hn, mem_iff_index _ hn', hidx k]

/-- C14: take a collection whose set entries have pairwise distinct keys, and visit its
entries in two orders. The two mappings `ListSet` returns hold the same value, or none,
under every key, and they are made of the same pairs. As a call on qualifiers in memory,
`ListSet` returns that same mapping and leaves the collection as it was: every entry
keeps its set flag and its value, and a second call on what the first call left returns
the same mapping again. -/
theorem ListSet_order_independent (printTable : Char → Bool) (qs qs' : Qualifiers)
    (hperm : qs.Perm qs')
    (hkeys : qs.Pairwise
      (fun a b => a.2.IsSet = true → b.2.IsSet = true → a.2.Key ≠ b.2.Key)) :
    (∀ k, (qs.ListSet printTable).index k = (qs'.ListSet printTable).index k)
      ∧ (qs.ListSet printTable).Perm (qs'.ListSet printTable)
      ∧ (qs.callListSet printTable).1 = qs.ListSet printTable
      ∧ (qs.callListSet printTable).2 = qs
      ∧ (qs.callListSet printTable).2.map (fun e => (e.2.IsSet, e.2.value))
          = qs.map (fun e => (e.2.IsSet, e.2.value))
      ∧ ((qs.callListSet printTable).2.callListSet printTable).1
          = (qs.callListSet printTable).1
      ∧ (qs.callListSet printTable).1.Perm (qs'.callListSet printTable).1 := by
  have hcall : ∀ l : Qualifiers,
      l.callListSet printTable = (l.ListSet printTable, l) :=
    fun l => listSetLoop_eq printTable l []
  obtain ⟨hidx, hp⟩ := listSet_perm printTable qs qs' hperm hkeys
  refine ⟨hidx, hp, ?_, ?_, ?_, ?_, ?_⟩
  · rw [hcall]
  · rw [hcall]
  · rw [hcall]
  · rw [hcall qs, hcall qs]
  · rw [hcall qs, hcall qs']
    exact hp

theorem ListSet_order_independent_witness :
    (Qualifiers.ListSet (fun _ => false)
      [("Stars", ((NewQualifier "stars" "string" "" (some RangeValidator)).Set ">100").2),
       ("Language", ((NewQualifier "language" "string" "" none).Set "go").2),
       ("Org", NewQualifier "org" "string" "" none)]).Perm
    (Qualifiers.ListSet (fun _ => false)
      [("Org", NewQualifier "org" "string" "" none),
       ("Language", ((NewQualifier "language" "string" "" none).Set "go").2),
       ("Stars", ((NewQualifier "stars" "string" "" (some RangeValidator)).Set ">100").2)]) :=
  (ListSet_order_independent (fun _ => false)
    [("Stars", ((NewQualifier "stars" "string" "" (some RangeValidator)).Set ">100").2),
     ("Language", ((NewQualifier "language" "string" "" none).Set "go").2),
     ("Org", NewQualifier "org" "string" "" none)]
    [("Org", NewQualifier "org" "string" "" none),
     ("Language", ((NewQualifier "language" "string" "" none).Set "go").2),
     ("Stars", ((NewQualifier "stars" "string" "" (some RangeValidator)).Set ">100").2)]
    (by
      refine (List.Perm.swap _ _ _).trans ?_
      refine ((List.Perm.swap _ _ _).cons _).trans ?_
      exact List.Perm.swap _ _ _)
    (by decide)).2.1

/-! ## The messages of the validators -/

theorem optsValidator_eq_none_iff (opts : List String) (v : String) :
    OptsValidator opts v = none ↔ v ∈ opts := by
  unfold OptsValidator
  by_cases h : isIncluded v opts = true
  · simp [h, (isIncluded_eq_true_iff v opts).1 h]
  · have hm : v ∉ opts := fun e => h ((isIncluded_eq_true_iff v opts).2 e)
    simp [h, hm]

theorem rangeValidator_eq_none_iff (v : String) :
    RangeValidator v = none ↔ rangeRE.MatchString v = true := by
  unfold RangeValidator
  cases rangeRE.MatchString v <;> simp

theorem dateValidator_eq_none_iff (v : String) :
    DateValidator v = none ↔ dateTimeRangeRE.MatchString v = true := by
  unfold DateValidator
  cases dateTimeRangeRE.MatchString v <;> simp

theorem multiOptsLoop_offender (printTable : Char → Bool) (opts s : List String)
    (h : multiOptsLoop printTable opts s ≠ none) :
    ∃ t, s.find? (fun u => decide (u ∉ opts)) = some t := by
  cases hf : s.find? (fun u => decide (u ∉ opts)) with
  | some t => exact ⟨t, rfl⟩
  | none =>
    exfalso
    apply h
    rw [multiOptsLoop_eq_none_iff]
    intro t ht
    have := List.find?_eq_none.1 hf t ht
    simpa using this

/-- C15: a validator that rejects `v` returns exactly this message. `OptsValidator`:
`v`, then ` is not included in `, then the options joined by a comma and a blank.
`BoolValidator`: `v`, then ` is not a boolean value`. `RangeValidator` and
`DateValidator`: `v`, then ` is invalid format`. `MultiOptsValidator`: the leftmost token
that is not an option, quoted as `%q` does, then ` is not included in ` and the options
joined in the same way. -/
theorem validator_messages (printTable : Char → Bool) (opts : List String) (v : String) :
    (OptsValidator opts v ≠ none →
        OptsValidator opts v = some (v ++ " is not included in " ++ Join opts ", "))
      ∧ (BoolValidator v ≠ none → BoolValidator v = some (v ++ " is not a boolean value"))
      ∧ (RangeValidator v ≠ none → RangeValidator v = some (v ++ " is invalid format"))
      ∧ (DateValidator v ≠ none → DateValidator v = some (v ++ " is invalid format"))
      ∧ (MultiOptsValidator printTable opts v ≠ none →
          ∃ t, (Split v ',').find? (fun u => decide (u ∉ opts)) = some t
            ∧ MultiOptsValidator printTable opts v
              = some (Quote printTable t ++ " is not included in " ++ Join opts ", "))
      ∧ Join ["name", "description", "readme"] ", " = "name, description, readme"
      ∧ OptsValidator ["asc", "desc"] "up" = some "up is not included in asc, desc"
      ∧ MultiOptsValidator printTable ["name", "description", "readme"] "name,descripton"
          = some "\"descripton\" is not included in name, description, readme" := by
  refine ⟨?_, ?_, ?_, ?_, ?_, by decide, by decide, rfl⟩
  · unfold OptsValidator
    cases isIncluded v opts <;> simp
  · unfold BoolValidator
    cases ParseBool v <;> simp
  · unfold RangeValidator
    cases rangeRE.MatchString v <;> simp
  · unfold DateValidator
    cases dateTimeRangeRE.MatchString v <;> simp
  · intro h
    obtain ⟨t, ht⟩ := multiOptsLoop_offender printTable opts _ h
    exact ⟨t, ht, multiOptsLoop_first printTable opts _ t ht⟩

theorem validator_messages_witness :
    RangeValidator "5..1..2" = some "5..1..2 is invalid format" :=
  (validator_messages (fun _ => false) [] "5..1..2").2.2.1 (by decide)

/-! ## The date grammar and the range grammar -/

theorem IsRangeSyntax_mono {tok tok' : Char → Bool} (h : ∀ c, tok c = true → tok' c = true)
    (v : String) (hv : IsRangeSyntax tok v) : IsRangeSyntax tok' v := by
  obtain ⟨p, d, t, hvd, hp, hd, hall, ht⟩ := hv
  refine ⟨p, d, t, hvd, hp, hd, fun c hc => h c (hall c hc), ?_⟩
  rcases ht with ht | ht | ⟨e, he, halle, ht⟩
  · exact Or.inl ht
  · exact Or.inr (Or.inl ht)
  · exact Or.inr (Or.inr ⟨e, he, fun c hc => h c (halle c hc), ht⟩)

/-- C18: every value `RangeValidator` accepts is accepted by `DateValidator`; not the
other way round, as `2021-01-01` shows. -/
theorem RangeValidator_imp_DateValidator (v : String) :
    (RangeValidator v = none → DateValidator v = none)
      ∧ DateValidator "2021-01-01" = none ∧ RangeValidator "2021-01-01" ≠ none := by
  refine ⟨?_, by decide, by decide⟩
  rw [rangeValidator_eq_none_iff, dateValidator_eq_none_iff, rangeRE_matchString_iff,
    dateTimeRangeRE_matchString_iff]
  apply IsRangeSyntax_mono
  intro c hc
  simp [isDateChar, hc]

theorem RangeValidator_imp_DateValidator_witness : DateValidator "*..10" = none :=
  (RangeValidator_imp_DateValidator "*..10").1 (by decide)

/-! ## The two option validators -/

/-- C19: on a value without a comma `MultiOptsValidator` accepts exactly when
`OptsValidator` does; and whenever `OptsValidator` accepts every token of a value,
`MultiOptsValidator` accepts the value, in whatever order the tokens come and however
often one is repeated. -/
theorem MultiOptsValidator_agrees (printTable : Char → Bool) (opts : List String)
    (v : String) :
    (',' ∉ v.data →
        (MultiOptsValidator printTable opts v = none ↔ OptsValidator opts v = none))
      ∧ ((∀ t ∈ Split v ',', OptsValidator opts t = none) →
          MultiOptsValidator printTable opts v = none)
      ∧ MultiOptsValidator printTable ["name", "description", "readme"] "readme,name,name"
          = none := by
  refine ⟨?_, ?_, ?_⟩
  · intro hv
    have hs : Split v ',' = [v] := by
      simp [Split, splitChars_of_not_mem ',' v.data hv]
    unfold MultiOptsValidator
    rw [multiOptsLoop_eq_none_iff, optsValidator_eq_none_iff, hs]
    simp
  · intro h
    unfold MultiOptsValidator
    rw [multiOptsLoop_eq_none_iff]
    exact fun t ht => (optsValidator_eq_none_iff opts t).1 (h t ht)
  · exact (multiOptsLoop_eq_none_iff printTable _ _).2 (by decide)

theorem MultiOptsValidator_agrees_witness :
    MultiOptsValidator (fun _ => false) ["public", "private"] "private" = none :=
  ((MultiOptsValidator_agrees (fun _ => false) ["public", "private"] "private").1
    (by decide)).2 (by decide)

/-! ## The query of `NewSearchQuery` -/

theorem NewSearchQuery_keys (printTable : Char → Bool) :
    (NewSearchQuery printTable).Qualifiers.map (fun e => e.2.Key)
      = ["archived", "created", "followers", "fork", "forks", "good-first-issues",
          "help-wanted-issues", "in", "language", "license", "mirror", "org", "pushed",
          "repo", "size", "stars", "topic", "topics", "user", "is"] := rfl

theorem NewSearchQuery_flags (printTable : Char → Bool) :
    (NewSearchQuery printTable).Qualifiers.map (fun e => e.2.IsSet)
      = List.replicate 20 false := rfl

/-- C16: in the query `NewSearchQuery` builds, the keys of the twenty qualifiers and of
the two parameters are not empty, the keys of the qualifiers are pairwise distinct, and
nothing is set; so `ListSet` returns the empty mapping, although `Fork`, `In` and
`Visibility` hold a default value that is not empty. -/
theorem NewSearchQuery_fresh (printTable : Char → Bool) :
    (NewSearchQuery printTable).Qualifiers.length = 20
      ∧ (∀ e ∈ (NewSearchQuery printTable).Qualifiers, e.2.Key ≠ "")
      ∧ (NewSearchQuery printTable).Order.Key ≠ ""
      ∧ (NewSearchQuery printTable).SortBy.Key ≠ ""
      ∧ (NewSearchQuery printTable).Qualifiers.Pairwise (fun a b => a.2.Key ≠ b.2.Key)
      ∧ (∀ e ∈ (NewSearchQuery printTable).Qualifiers, e.2.IsSet = false)
      ∧ (NewSearchQuery printTable).Order.IsSet = false
      ∧ (NewSearchQuery printTable).SortBy.IsSet = false
      ∧ (NewSearchQuery printTable).Qualifiers.ListSet printTable = []
      ∧ ((NewSearchQuery printTable).Qualifiers.index "Fork").map (fun q => q.value)
          = some "false"
      ∧ ((NewSearchQuery printTable).Qualifiers.index "In").map (fun q => q.value)
          = some "name,descripton"
      ∧ ((NewSearchQuery printTable).Qualifiers.index "Visibility").map (fun q => q.value)
          = some "public" := by
  refine ⟨rfl, ?_, (by decide : "order" ≠ ""), (by decide : "sort" ≠ ""), ?_, ?_, rfl, rfl, rfl,
    rfl, rfl, rfl⟩
  · intro e he
    have hk : e.2.Key ∈ (NewSearchQuery printTable).Qualifiers.map (fun e => e.2.Key) :=
      List.mem_map.2 ⟨e, he, rfl⟩
    rw [NewSearchQuery_keys] at hk
    intro h0
    rw [h0] at hk
    revert hk
    decide
  · have h : ((NewSearchQuery printTable).Qualifiers.map (fun e => e.2.Key)).Pairwise
        (fun a b => a ≠ b) := by
      rw [NewSearchQuery_keys]
      decide
    exact List.pairwise_map.1 h
  · intro e he
    have hk : e.2.IsSet ∈ (NewSearchQuery printTable).Qualifiers.map (fun e => e.2.IsSet) :=
      List.mem_map.2 ⟨e, he, rfl⟩
    rw [NewSearchQuery_flags] at hk
    exact (List.mem_replicate.1 hk).2

/-- C20, at the input where the sentence fails: the parameter `sort` has a validator and
the default value `best match`, and `Set` with that value returns the error of the
validator. -/
theorem sort_default_rejected :
    (NewSearchQuery (fun _ => false)).SortBy.validator.isSome = true
      ∧ (NewSearchQuery (fun _ => false)).SortBy.value = "best match"
      ∧ ((NewSearchQuery (fun _ => false)).SortBy.Set
          (NewSearchQuery (fun _ => false)).SortBy.value).1
        = some "best match is not included in forks, help-wanted-issues, stars, updated" := by
  refine ⟨rfl, rfl, by decide⟩

/-- C20, amended: the default values of `order`, `Fork` and `Visibility` are accepted by
the validator of their entry, so `Set` with the default returns no error; the default
`best match` of `sort` is not one of the options of its validator, and `Set` with it
returns the error of the validator. -/
theorem defaults_accepted (printTable : Char → Bool) :
    (NewSearchQuery printTable).Order.value = "desc"
      ∧ ((NewSearchQuery printTable).Order.Set (NewSearchQuery printTable).Order.value).1 = none
      ∧ ((NewSearchQuery printTable).Qualifiers.index "Fork").map
          (fun q => (q.value, (q.Set q.value).1)) = some ("false", none)
      ∧ ((NewSearchQuery printTable).Qualifiers.index "Visibility").map
          (fun q => (q.value, (q.Set q.value).1)) = some ("public", none)
      ∧ (NewSearchQuery printTable).SortBy.value = "best match"
      ∧ ((NewSearchQuery printTable).SortBy.Set (NewSearchQuery printTable).SortBy.value).1
          = some "best match is not included in forks, help-wanted-issues, stars, updated" := by
  refine ⟨rfl, rfl, rfl, rfl, rfl, rfl⟩

/-- The default value of `In` as the source spells it, `name,descripton`, is rejected by
the validator of `In`, whose options are `name`, `description` and `readme`. -/
theorem In_default_rejected (printTable : Char → Bool) :
    ((NewSearchQuery printTable).Qualifiers.index "In").map
        (fun q => (q.value, (q.Set q.value).1))
      = some ("name,descripton",
          some "\"descripton\" is not included in name, description, readme") := rfl

/-! ## The rows of `displayResults` -/

/-- C17, evaluated: `displayResults` reads `full_name` with a type assertion in its
one-value form. An item without the field, or with a number in it, stops the loop with a
panic, also after rows that were read; the fields `private`, `fork`, `archived`,
`updated_at` and `description` are read with the two-value form and fall back to the zero
value. -/
theorem displayRow_full_name_unchecked (isTTY : Bool)
    (replaceExcessiveWhitespace formatTime : String → String) :
    displayRow isTTY replaceExcessiveWhitespace formatTime
        [("description", .string "A tool"), ("private", .bool false)]
      = .error "interface conversion: interface {} is nil, not string"
      ∧ displayRow isTTY replaceExcessiveWhitespace formatTime [("full_name", .number "42")]
        = .error "interface conversion: interface {} is float64, not string"
      ∧ displayRows isTTY replaceExcessiveWhitespace formatTime
          [[("full_name", .string "cli/cli")], [("description", .string "A tool")]]
        = .error "interface conversion: interface {} is nil, not string"
      ∧ displayRow false replaceExcessiveWhitespace formatTime
          [("full_name", .string "cli/cli"), ("private", .string "yes"),
            ("archived", .bool true), ("description", .null)]
        = .ok [("cli/cli", some "Bold"), (replaceExcessiveWhitespace "", none),
            ("public, archived", some "Gray"), ("", none)] := by
  refine ⟨rfl, rfl, ?_, rfl⟩
  cases isTTY <;> rfl

end Search
